import Mathlib

/-!
Verification development for the Phaistos 6502 superoptimizer
(search + verification engine).

This file gives a shallow embedding, in Lean 4, of the components of the
Phaistos source that the checked claims are about:

* the `Value` model and its string parser (`src/value.cpp`, `value.hpp`);
* the tracked memory with region policy (`src/memory.hpp`);
* the simplified 6502 interpreter `CPU6502` (`src/cpu.cpp`);
* the verification engine: test-case generation, single-test runs and the
  unauthorized-modification check (`src/verification_engine.cpp`);
* the transformation cache (`src/transformation_cache.cpp`);
* the sequence generator (`src/sequence_generator.cpp`);
* the optimizer driver loop (`src/optimizer.cpp`).

Machine integers are embedded as `Nat` with explicit reductions modulo
`2^8`, `2^16` and `2^64` at the points where the C++ code performs
modular (unsigned) arithmetic.  C++ exceptions are embedded by threading
the partially mutated state together with a success flag, because the
source catches every exception at the `execute` / `runTest` boundary and
the partially mutated objects stay alive there.  `std::vector` becomes
`List`, `std::map` / `std::unordered_map` become association lists, and
`std::unordered_set` becomes a list with membership-preserving insertion
(the code never depends on the iteration order of these sets in a way
that is observable in the claims).
-/

namespace Phaistos

/-! ## Machine arithmetic helpers -/

/-- `2^64`, the modulus of `size_t` arithmetic. -/
def size_t_mod : Nat := 18446744073709551616

/-- `SIZE_MAX`, the default `max_instructions` of `CPU::execute`. -/
def SIZE_MAX : Nat := 18446744073709551615

/-- `size_t` subtraction `a - b` (wraps modulo `2^64`). -/
def cppSub64 (a b : Nat) : Nat := (a + (size_t_mod - b % size_t_mod)) % size_t_mod

/-- Truncation to a byte (`static_cast<uint8_t>`). -/
def toU8 (n : Nat) : Nat := n % 256

/-- Truncation to 16 bits (`static_cast<uint16_t>` / `AddressT`). -/
def toU16 (n : Nat) : Nat := n % 65536

/-! ## Value model (`value.hpp`, `src/value.cpp`)

The checked-in header `value.hpp` declares the tags EXACT/ANY/SAME, while
`src/value.cpp` additionally constructs `Value::equ()`; the EQU-bearing
header revision is not present under `src/`.  The tag enumeration below
therefore carries the EQU tag as well (modelled from the spec: §3 makes
`Value` a tagged variant over EXACT/ANY/SAME/EQU); for the parsing claims
only the EXACT/ANY/SAME/EQU distinction matters. -/

inductive ValueTag where
  | EXACT
  | ANY
  | SAME
  | EQU
deriving DecidableEq, Repr

/-- `class Value`: a tag plus the byte payload (payload only meaningful
for EXACT; the constructors set it to 0 otherwise). -/
structure Value where
  type : ValueTag
  exact_value : Nat
deriving DecidableEq, Repr

/-- `Value::exact(b)` -/
def Value.exact (b : Nat) : Value := ⟨ValueTag.EXACT, b⟩

/-- `Value::any()` -/
def Value.anyV : Value := ⟨ValueTag.ANY, 0⟩

/-- `Value::same()` -/
def Value.sameV : Value := ⟨ValueTag.SAME, 0⟩

/-- `Value::equ()` -/
def Value.equV : Value := ⟨ValueTag.EQU, 0⟩

/-! ### `std::stoi` and `parseNumeric`

Strings are embedded as `List Char`.  `std::stoi(s, nullptr, base)`
converts the longest prefix of digits of the given base, throws
`invalid_argument` when that prefix is empty and `out_of_range` when the
value exceeds `INT_MAX`; both exceptions surface as parse failure.  The
tokens reaching `Value::parse` are bare literals, so the optional
whitespace/sign prefix accepted by `stoi` is not exercised and is not
modelled. -/

/-- `INT_MAX` for the `stoi` overflow bound. -/
def INT_MAX : Nat := 2147483647

/-- Digit value of a character in the given base, if it is a digit. -/
def digitInBase (base : Nat) (c : Char) : Option Nat :=
  let v : Option Nat :=
    if '0' ≤ c ∧ c ≤ '9' then some (c.toNat - '0'.toNat)
    else if 'a' ≤ c ∧ c ≤ 'f' then some (c.toNat - 'a'.toNat + 10)
    else if 'A' ≤ c ∧ c ≤ 'F' then some (c.toNat - 'A'.toNat + 10)
    else none
  match v with
  | some d => if d < base then some d else none
  | none => none

/-- Accumulate the longest digit prefix, as `stoi` does. -/
def stoiDigits (base : Nat) : List Char → Nat → Nat × Nat
  | [], acc => (acc, 0)
  | c :: rest, acc =>
    match digitInBase base c with
    | some d =>
      let (v, n) := stoiDigits base rest (acc * base + d)
      (v, n + 1)
    | none => (acc, 0)

/-- `std::stoi(s, nullptr, base)` on a bare literal: `none` models a
thrown `invalid_argument` (no digits) or `out_of_range` (above
`INT_MAX`). -/
def stoi (s : List Char) (base : Nat) : Option Nat :=
  let (v, n) := stoiDigits base s 0
  if n = 0 then none
  else if v ≤ INT_MAX then some v else none

/-- `uint8_t parseNumeric(const std::string&)` from `src/value.cpp`:
hex (`0xNN`, `$NN`, `NNh`), binary (`0bNN`, `%NN`) or decimal, with the
result truncated by `static_cast<uint8_t>`.  `none` models a thrown
exception. -/
def parseNumeric (text : List Char) : Option Nat :=
  if text = [] then none
  else if (3 ≤ text.length ∧ text.take 2 = ['0', 'x']) ∨
          (2 ≤ text.length ∧ text.head? = some '$') ∨
          (2 ≤ text.length ∧ text.getLast? = some 'h') then
    let hexPart :=
      if text.take 2 = ['0', 'x'] then text.drop 2
      else if text.head? = some '$' then text.drop 1
      else if text.getLast? = some 'h' then text.take (text.length - 1)
      else []
    (stoi hexPart 16).map toU8
  else if (3 ≤ text.length ∧ text.take 2 = ['0', 'b']) ∨
          (2 ≤ text.length ∧ text.head? = some '%') then
    let binPart :=
      if text.take 2 = ['0', 'b'] then text.drop 2
      else if text.head? = some '%' then text.drop 1
      else []
    (stoi binPart 2).map toU8
  else
    (stoi text 10).map toU8

/-- `Value::parse` from `src/value.cpp`.  `Except` models the
exception-based error path (a `runtime_error` escaping `parse`). -/
def Value.parse (text : List Char) : Except String Value :=
  if text = ['?', '?'] ∨ text = ['?'] ∨ text = ['A', 'N', 'Y'] ∨
     text.contains '?' then
    Except.ok Value.anyV
  else if text = ['S', 'A', 'M', 'E'] then
    Except.ok Value.sameV
  else if text = ['E', 'Q', 'U'] then
    Except.ok Value.equV
  else
    match parseNumeric text with
    | some v => Except.ok (Value.exact v)
    | none => Except.error "Failed to parse value"

/-! ## Specification data model (`optimization_spec.hpp`) -/

/-- `OptimizationSpec::MemoryRegion`: a base address and a vector of
`Value` cells. -/
structure MemoryRegionV where
  address : Nat
  bytes : List Value
deriving DecidableEq, Repr

/-- `MemoryRegion::containsAddress`:
`addr >= address && addr < address + bytes.size()` (the sum is computed
in `size_t`, so it does not wrap for 16-bit data). -/
def MemoryRegionV.containsAddress (r : MemoryRegionV) (addr : Nat) : Bool :=
  r.address ≤ addr && addr < r.address + r.bytes.length

/-- `OptimizationSpec::OptimizationGoal`. -/
inductive Goal where
  | SIZE
  | SPEED
deriving DecidableEq, Repr

/-- `OptimizationSpec::CPUState` (constraints on A, X, Y, SP). -/
structure SpecCPUState where
  a : Value
  x : Value
  y : Value
  sp : Value
deriving DecidableEq, Repr

/-- `OptimizationSpec::FlagState` (constraints on C, Z, I, D, B, V, N). -/
structure SpecFlagState where
  c : Value
  z : Value
  i : Value
  d : Value
  b : Value
  v : Value
  n : Value
deriving DecidableEq, Repr

/-- `OptimizationSpec` (code blocks are irrelevant to the verification
and search paths modelled here and are omitted). -/
structure OptimizationSpec where
  goal : Goal
  run_address : Nat
  input_cpu : SpecCPUState
  input_flags : SpecFlagState
  input_memory : List MemoryRegionV
  output_cpu : SpecCPUState
  output_flags : SpecFlagState
  output_memory : List MemoryRegionV
deriving DecidableEq, Repr

/-! ## Tracked memory (`memory.hpp`) -/

/-- Insert into an `std::unordered_set` (no duplicates). -/
def setInsert (a : Nat) (s : List Nat) : List Nat :=
  if s.contains a then s else a :: s

/-- Update an `std::unordered_map<AddressT, uint8_t>` entry. -/
def mapSet (addr v : Nat) : List (Nat × Nat) → List (Nat × Nat)
  | [] => [(addr, v)]
  | (k, w) :: rest =>
    if k = addr then (k, v) :: rest else (k, w) :: mapSet addr v rest

/-- Look an address up in the sparse map. -/
def mapFind (addr : Nat) : List (Nat × Nat) → Option Nat
  | [] => none
  | (k, w) :: rest => if k = addr then some w else mapFind addr rest

/-- `class TrackedMemory`: sparse byte map, the read/modified tracking
sets, and the allowed input/output regions. -/
structure TrackedMemory where
  memory : List (Nat × Nat) := []
  read_addresses : List Nat := []
  modified_addresses : List Nat := []
  input_regions : List MemoryRegionV := []
  output_regions : List MemoryRegionV := []
deriving DecidableEq, Repr

/-- `TrackedMemory::isReadAllowed`. -/
def TrackedMemory.isReadAllowed (m : TrackedMemory) (addr : Nat) : Bool :=
  m.input_regions.any (fun r => r.containsAddress addr)

/-- `TrackedMemory::isWriteAllowed`. -/
def TrackedMemory.isWriteAllowed (m : TrackedMemory) (addr : Nat) : Bool :=
  m.output_regions.any (fun r => r.containsAddress addr)

/-- `TrackedMemory::isReadWriteAllowed`. -/
def TrackedMemory.isReadWriteAllowed (m : TrackedMemory) (addr : Nat) : Bool :=
  m.isReadAllowed addr && m.isWriteAllowed addr

/-- `TrackedMemory::read`.  The address is recorded in `read_addresses`
before the policy check, so the record survives a thrown violation;
`none` in the second component models the throw.  Uninitialized legal
reads return 0. -/
def TrackedMemory.readM (m : TrackedMemory) (addr : Nat) :
    TrackedMemory × Option Nat :=
  let m' := { m with read_addresses := setInsert addr m.read_addresses }
  if m'.isReadAllowed addr then
    (m', some ((mapFind addr m'.memory).getD 0))
  else
    (m', none)

/-- `TrackedMemory::write`.  The address is recorded in
`modified_addresses` before either policy check; `false` in the second
component models a thrown violation (self-modifying-code check first,
then the plain output-region check). -/
def TrackedMemory.writeM (m : TrackedMemory) (addr v : Nat) :
    TrackedMemory × Bool :=
  let m' := { m with modified_addresses := setInsert addr m.modified_addresses }
  if m'.read_addresses.contains addr && !(m'.isReadWriteAllowed addr) then
    (m', false)
  else if !(m'.isWriteAllowed addr) then
    (m', false)
  else
    ({ m' with memory := mapSet addr v m'.memory }, true)

/-- `TrackedMemory::read16` (little-endian; the second read is at
`static_cast<AddressT>(address + 1)`). -/
def TrackedMemory.read16M (m : TrackedMemory) (addr : Nat) :
    TrackedMemory × Option Nat :=
  match m.readM addr with
  | (m1, none) => (m1, none)
  | (m1, some lo) =>
    match m1.readM (toU16 (addr + 1)) with
    | (m2, none) => (m2, none)
    | (m2, some hi) => (m2, some (lo ||| (hi <<< 8)))

/-- `TrackedMemory::initialize`, the memory-priming setter (bypasses
policy and tracking). -/
def TrackedMemory.initByte (m : TrackedMemory) (addr v : Nat) :
    TrackedMemory :=
  { m with memory := mapSet addr v m.memory }

/-! ## CPU interpreter (`cpu.hpp`, `src/cpu.cpp`)

`CPU6502` is the CPU the verification engine and the optimizer
instantiate (the vendored Fake6502 core is not referenced by either). -/

/-- `CPU6502::State` with its constructor defaults. -/
structure CPUState where
  a : Nat := 0
  x : Nat := 0
  y : Nat := 0
  sp : Nat := 0xFF
  c : Bool := false
  z : Bool := false
  i : Bool := false
  d : Bool := false
  b : Bool := false
  v : Bool := false
  n : Bool := false
  pc : Nat := 0
deriving DecidableEq, Repr

/-- `ExecutionResult::ErrorType`. -/
inductive ExecError where
  | NONE
  | INVALID_INSTRUCTION
  | MEMORY_ACCESS_VIOLATION
  | EXECUTION_LIMIT_REACHED
  | OTHER
deriving DecidableEq, Repr

/-- `struct ExecutionResult` with its constructor defaults
(`error_message` carries no information used by any claim and is
omitted). -/
structure ExecutionResult where
  cycles : Nat := 0
  instructions : Nat := 0
  completed : Bool := false
  error : ExecError := ExecError.NONE
deriving DecidableEq, Repr

/-- The combined mutable state of one `CPU6502::execute` call: the CPU
object's `state` member, the `Memory&` argument and the accumulated
`ExecutionResult`. -/
structure Machine where
  cpu : CPUState
  mem : TrackedMemory
  res : ExecutionResult
deriving DecidableEq, Repr

/-- The `cycleTable` of `CPU6502::getInstructionCycles`. -/
def cycleTable : List (Nat × Nat) :=
  [(0xA9, 2), (0x85, 3), (0x95, 4), (0x8D, 4), (0x9D, 5), (0x99, 5),
   (0xA2, 2), (0xA0, 2), (0x18, 2), (0x38, 2), (0xE8, 2), (0xC8, 2),
   (0xCA, 2), (0x88, 2), (0xE6, 5), (0xC6, 5), (0x69, 2), (0xC9, 2),
   (0xD0, 2), (0xF0, 2), (0x90, 2), (0xB0, 2), (0x4C, 3), (0xEA, 2),
   (0x00, 7)]

/-- `CPU6502::getInstructionCycles(opcode, page_cross)`: table value (or
the default 2 for unknown opcodes) plus 1 when `page_cross`. -/
def getInstructionCycles (opcode : Nat) (page_cross : Bool) : Nat :=
  (cycleTable.lookup opcode).getD 2 + (if page_cross then 1 else 0)

/-- `CPU6502::updateZN`. -/
def updateZN (st : CPUState) (v : Nat) : CPUState :=
  { st with z := v == 0, n := (v &&& 0x80) != 0 }

/-- Relative branch target: `state.pc += offset` with `offset` the
sign-extended operand byte and `pc` a `uint16_t`. -/
def branchTarget (pc byte : Nat) : Nat :=
  if byte < 128 then toU16 (pc + byte) else toU16 (pc + byte + 65536 - 256)
/-- The body of the `case 0xA9 / 0xA2 / 0xA0` (LDA/LDX/LDY immediate)
branches: read the operand with `state.pc++`, store it through `set`
(the targeted register), update Z/N. -/
def execLoadImm (set : CPUState → Nat → CPUState) (st1 : CPUState)
    (mem1 : TrackedMemory) (res1 : ExecutionResult) : Machine × Bool :=
  match mem1.readM st1.pc with
  | (mem2, none) => (⟨{ st1 with pc := toU16 (st1.pc + 1) }, mem2, res1⟩, false)
  | (mem2, some v) =>
    let st2 := set { st1 with pc := toU16 (st1.pc + 1) } v
    (⟨updateZN st2 v, mem2, res1⟩, true)

/-- `case 0x85` (STA zero page): read the zero-page address, write A. -/
def execSTAzp (st1 : CPUState) (mem1 : TrackedMemory)
    (res1 : ExecutionResult) : Machine × Bool :=
  match mem1.readM st1.pc with
  | (mem2, none) => (⟨{ st1 with pc := toU16 (st1.pc + 1) }, mem2, res1⟩, false)
  | (mem2, some zpAddr) =>
    let st2 := { st1 with pc := toU16 (st1.pc + 1) }
    match mem2.writeM zpAddr st2.a with
    | (mem3, ok) => (⟨st2, mem3, res1⟩, ok)

/-- `case 0x95` (STA zero page,X): the effective address wraps within
page zero (`(zpAddr + x) & 0xFF`). -/
def execSTAzpX (st1 : CPUState) (mem1 : TrackedMemory)
    (res1 : ExecutionResult) : Machine × Bool :=
  match mem1.readM st1.pc with
  | (mem2, none) => (⟨{ st1 with pc := toU16 (st1.pc + 1) }, mem2, res1⟩, false)
  | (mem2, some zpAddr) =>
    let st2 := { st1 with pc := toU16 (st1.pc + 1) }
    match mem2.writeM ((zpAddr + st2.x) &&& 0xFF) st2.a with
    | (mem3, ok) => (⟨st2, mem3, res1⟩, ok)

/-- `case 0x8D / 0x9D / 0x99` (STA absolute / absolute,X / absolute,Y):
read the 16-bit address with `read16` (then `state.pc += 2`), add the
index supplied by `idx` (`0`, X or Y; the sum is an `AddressT`), write
A.  When `read16` faults, `state.pc += 2` has not yet executed. -/
def execSTAabs (idx : CPUState → Nat) (st1 : CPUState)
    (mem1 : TrackedMemory) (res1 : ExecutionResult) : Machine × Bool :=
  match mem1.read16M st1.pc with
  | (mem2, none) => (⟨st1, mem2, res1⟩, false)
  | (mem2, some addr) =>
    let st2 := { st1 with pc := toU16 (st1.pc + 2) }
    match mem2.writeM (toU16 (addr + idx st2)) st2.a with
    | (mem3, ok) => (⟨st2, mem3, res1⟩, ok)

/-- `case 0xE6 / 0xC6` (INC/DEC zero page): read the address and the
byte, add `delta` (1, or 255 for the wrapping decrement), write back,
update Z/N (Z/N are not updated if the write throws first). -/
def execIncDecZp (delta : Nat) (st1 : CPUState) (mem1 : TrackedMemory)
    (res1 : ExecutionResult) : Machine × Bool :=
  match mem1.readM st1.pc with
  | (mem2, none) => (⟨{ st1 with pc := toU16 (st1.pc + 1) }, mem2, res1⟩, false)
  | (mem2, some zpAddr) =>
    let st2 := { st1 with pc := toU16 (st1.pc + 1) }
    match mem2.readM zpAddr with
    | (mem3, none) => (⟨st2, mem3, res1⟩, false)
    | (mem3, some val0) =>
      let val := toU8 (val0 + delta)
      match mem3.writeM zpAddr val with
      | (mem4, true) => (⟨updateZN st2 val, mem4, res1⟩, true)
      | (mem4, false) => (⟨st2, mem4, res1⟩, false)

/-- `case 0x69` (ADC immediate), binary mode as the source has it:
16-bit sum, carry from bit 8, overflow from the usual XOR formula, A
truncated to 8 bits. -/
def execADCimm (st1 : CPUState) (mem1 : TrackedMemory)
    (res1 : ExecutionResult) : Machine × Bool :=
  match mem1.readM st1.pc with
  | (mem2, none) => (⟨{ st1 with pc := toU16 (st1.pc + 1) }, mem2, res1⟩, false)
  | (mem2, some val) =>
    let st2 := { st1 with pc := toU16 (st1.pc + 1) }
    let sum := st2.a + val + (if st2.c then 1 else 0)
    let st3 := { st2 with
      c := sum > 0xFF,
      v := ((st2.a ^^^ sum) &&& (val ^^^ sum) &&& 0x80) != 0,
      a := sum &&& 0xFF }
    (⟨updateZN st3 st3.a, mem2, res1⟩, true)

/-- `case 0xC9` (CMP immediate): `diff` is a `uint16_t`. -/
def execCMPimm (st1 : CPUState) (mem1 : TrackedMemory)
    (res1 : ExecutionResult) : Machine × Bool :=
  match mem1.readM st1.pc with
  | (mem2, none) => (⟨{ st1 with pc := toU16 (st1.pc + 1) }, mem2, res1⟩, false)
  | (mem2, some val) =>
    let st2 := { st1 with pc := toU16 (st1.pc + 1) }
    let diff := (st2.a + 65536 - val) % 65536
    let st3 := { st2 with
      c := st2.a ≥ val,
      z := st2.a == val,
      n := (diff &&& 0x80) != 0 }
    (⟨st3, mem2, res1⟩, true)

/-- `case 0xD0 / 0xF0 / 0x90 / 0xB0` (BNE/BEQ/BCC/BCS): read the
offset; when `cond` holds add one cycle (branch taken) and move `pc`. -/
def execBranch (cond : CPUState → Bool) (st1 : CPUState)
    (mem1 : TrackedMemory) (res1 : ExecutionResult) : Machine × Bool :=
  match mem1.readM st1.pc with
  | (mem2, none) => (⟨{ st1 with pc := toU16 (st1.pc + 1) }, mem2, res1⟩, false)
  | (mem2, some offset) =>
    let st2 := { st1 with pc := toU16 (st1.pc + 1) }
    if cond st2 then
      (⟨{ st2 with pc := branchTarget st2.pc offset }, mem2,
        { res1 with cycles := res1.cycles + 1 }⟩, true)
    else (⟨st2, mem2, res1⟩, true)

/-- `case 0x4C` (JMP absolute): `pc` is set to the operand; the source
does not advance `pc` past the operand bytes. -/
def execJMPabs (st1 : CPUState) (mem1 : TrackedMemory)
    (res1 : ExecutionResult) : Machine × Bool :=
  match mem1.read16M st1.pc with
  | (mem2, none) => (⟨st1, mem2, res1⟩, false)
  | (mem2, some addr) => (⟨{ st1 with pc := addr }, mem2, res1⟩, true)

/-- `CPU6502::executeInstruction`.  The returned flag is `false` when
the C++ body throws (a memory-policy violation or the `default:` branch
for an unimplemented opcode); the machine then carries exactly the
mutations already performed, since `state`, the memory and the result
are all mutated in place.  Note that `execResult.cycles` is bumped
*before* the opcode dispatch, always with `page_cross` at its default
`false`, and that `state.pc` is incremented by the `state.pc++` argument
side effect even when the fetch itself faults.  Each `case` of the
source `switch` is one helper above or a one-line branch below. -/
def step (s : Machine) : Machine × Bool :=
  match s.mem.readM s.cpu.pc with
  | (mem1, opc?) =>
  let st1 := { s.cpu with pc := toU16 (s.cpu.pc + 1) }
  match opc? with
  | none => (⟨st1, mem1, s.res⟩, false)
  | some opcode =>
    let res1 := { s.res with cycles := s.res.cycles + getInstructionCycles opcode false }
    if opcode = 0xA9 then execLoadImm (fun st v => { st with a := v }) st1 mem1 res1
    else if opcode = 0x85 then execSTAzp st1 mem1 res1
    else if opcode = 0x95 then execSTAzpX st1 mem1 res1
    else if opcode = 0x8D then execSTAabs (fun _ => 0) st1 mem1 res1
    else if opcode = 0x9D then execSTAabs (fun st => st.x) st1 mem1 res1
    else if opcode = 0x99 then execSTAabs (fun st => st.y) st1 mem1 res1
    else if opcode = 0xA2 then execLoadImm (fun st v => { st with x := v }) st1 mem1 res1
    else if opcode = 0xA0 then execLoadImm (fun st v => { st with y := v }) st1 mem1 res1
    else if opcode = 0x18 then (⟨{ st1 with c := false }, mem1, res1⟩, true)
    else if opcode = 0x38 then (⟨{ st1 with c := true }, mem1, res1⟩, true)
    else if opcode = 0xE8 then
      let st2 := { st1 with x := toU8 (st1.x + 1) }
      (⟨updateZN st2 st2.x, mem1, res1⟩, true)
    else if opcode = 0xC8 then
      let st2 := { st1 with y := toU8 (st1.y + 1) }
      (⟨updateZN st2 st2.y, mem1, res1⟩, true)
    else if opcode = 0xCA then
      let st2 := { st1 with x := toU8 (st1.x + 255) }
      (⟨updateZN st2 st2.x, mem1, res1⟩, true)
    else if opcode = 0x88 then
      let st2 := { st1 with y := toU8 (st1.y + 255) }
      (⟨updateZN st2 st2.y, mem1, res1⟩, true)
    else if opcode = 0xE6 then execIncDecZp 1 st1 mem1 res1
    else if opcode = 0xC6 then execIncDecZp 255 st1 mem1 res1
    else if opcode = 0x69 then execADCimm st1 mem1 res1
    else if opcode = 0xC9 then execCMPimm st1 mem1 res1
    else if opcode = 0xD0 then execBranch (fun st => !st.z) st1 mem1 res1
    else if opcode = 0xF0 then execBranch (fun st => st.z) st1 mem1 res1
    else if opcode = 0x90 then execBranch (fun st => !st.c) st1 mem1 res1
    else if opcode = 0xB0 then execBranch (fun st => st.c) st1 mem1 res1
    else if opcode = 0x4C then execJMPabs st1 mem1 res1
    else if opcode = 0xEA then (⟨st1, mem1, res1⟩, true)
    else if opcode = 0x00 then (⟨st1, mem1, { res1 with completed := true }⟩, true)
    else
      -- default: throw std::runtime_error("Unimplemented opcode")
      (⟨st1, mem1, res1⟩, false)

/-- The `while` loop of `CPU6502::execute`, indexed by the fuel
`max_instructions - instructions` (each iteration increments
`instructions` by exactly one, so the fuel reaching 0 is exactly the
loop condition turning false).  At fuel 0 the post-loop check of the
source is transcribed verbatim, including its unreachable
`completed = true` branch; a thrown exception during a step sets
`INVALID_INSTRUCTION` and stops, as the `catch` does. -/
def execGo (max_instructions : Nat) : Nat → Machine → Machine
  | 0, s =>
    if max_instructions ≤ s.res.instructions then
      { s with res := { s.res with error := ExecError.EXECUTION_LIMIT_REACHED } }
    else
      { s with res := { s.res with completed := true } }
  | fuel + 1, s =>
    match step s with
    | (s', true) =>
      execGo max_instructions fuel
        { s' with res := { s'.res with instructions := s'.res.instructions + 1 } }
    | (s', false) =>
      { s' with res := { s'.res with error := ExecError.INVALID_INSTRUCTION } }

/-- `CPU6502::execute(memory, start_address, max_instructions)`: fresh
`ExecutionResult`, `state.pc = start_address`, then the loop. -/
def execute (st : CPUState) (mem : TrackedMemory) (start : Nat)
    (max_instructions : Nat) : Machine :=
  execGo max_instructions max_instructions ⟨{ st with pc := start }, mem, {}⟩

/-- `getAllValidOpcodes()` from `src/cpu.cpp`. -/
def getAllValidOpcodes : List Nat :=
  [0xA9, 0x85, 0x95, 0x8D, 0x9D, 0x99,
   0xA2, 0xA0,
   0x18, 0x38,
   0xE8, 0xC8, 0xCA, 0x88,
   0xE6, 0xC6,
   0x69, 0xC9,
   0xD0, 0xF0, 0x90, 0xB0,
   0x4C,
   0xEA,
   0x00]

/-! ## Verification engine (`src/verification_engine.cpp`) -/

/-- Insert into an `std::map<AddressT, uint8_t>` (kept sorted by key,
as iteration order of `std::map` is key order). -/
def smapSet (addr v : Nat) : List (Nat × Nat) → List (Nat × Nat)
  | [] => [(addr, v)]
  | (k, w) :: rest =>
    if addr < k then (addr, v) :: (k, w) :: rest
    else if k = addr then (addr, v) :: rest
    else (k, w) :: smapSet addr v rest

/-- `VerificationEngine::TestCase`: a concrete CPU state plus the
explicitly set memory bytes. -/
structure TestCase where
  cpu : CPUState := {}
  memory_values : List (Nat × Nat) := []
deriving DecidableEq, Repr

/-- The boundary `test_values` (also the `critical_values`) used by
`generateTestCases`. -/
def testValues : List Nat := [0, 1, 0x7F, 0x80, 0xFF]

/-- The `createVariations` lambda of `generateTestCases`: when the spec
value is ANY, expand every current case with each boundary value. -/
def createVariations (value : Value) (setter : TestCase → Nat → TestCase)
    (cases : List TestCase) : List TestCase :=
  if value.type = ValueTag.ANY then
    cases.flatMap (fun tc => testValues.map (fun val => setter tc val))
  else cases

/-- The base test case of `generateTestCases`: default-constructed CPU
state overridden by every EXACT input constraint, plus every EXACT
input-memory byte (`bool` register flags take `exact_value != 0`, the
implicit `uint8_t`-to-`bool` conversion). -/
def baseCase (spec : OptimizationSpec) : TestCase :=
  let cpu0 : CPUState := {}
  let cpu1 := if spec.input_cpu.a.type = ValueTag.EXACT then
    { cpu0 with a := spec.input_cpu.a.exact_value } else cpu0
  let cpu2 := if spec.input_cpu.x.type = ValueTag.EXACT then
    { cpu1 with x := spec.input_cpu.x.exact_value } else cpu1
  let cpu3 := if spec.input_cpu.y.type = ValueTag.EXACT then
    { cpu2 with y := spec.input_cpu.y.exact_value } else cpu2
  let cpu4 := if spec.input_cpu.sp.type = ValueTag.EXACT then
    { cpu3 with sp := spec.input_cpu.sp.exact_value } else cpu3
  let cpu5 := if spec.input_flags.c.type = ValueTag.EXACT then
    { cpu4 with c := spec.input_flags.c.exact_value ≠ 0 } else cpu4
  let cpu6 := if spec.input_flags.z.type = ValueTag.EXACT then
    { cpu5 with z := spec.input_flags.z.exact_value ≠ 0 } else cpu5
  let cpu7 := if spec.input_flags.i.type = ValueTag.EXACT then
    { cpu6 with i := spec.input_flags.i.exact_value ≠ 0 } else cpu6
  let cpu8 := if spec.input_flags.d.type = ValueTag.EXACT then
    { cpu7 with d := spec.input_flags.d.exact_value ≠ 0 } else cpu7
  let cpu9 := if spec.input_flags.b.type = ValueTag.EXACT then
    { cpu8 with b := spec.input_flags.b.exact_value ≠ 0 } else cpu8
  let cpu10 := if spec.input_flags.v.type = ValueTag.EXACT then
    { cpu9 with v := spec.input_flags.v.exact_value ≠ 0 } else cpu9
  let cpu11 := if spec.input_flags.n.type = ValueTag.EXACT then
    { cpu10 with n := spec.input_flags.n.exact_value ≠ 0 } else cpu10
  let mem := spec.input_memory.foldl (fun acc r =>
    (List.range r.bytes.length).foldl (fun acc i =>
      if (r.bytes.getD i Value.anyV).type = ValueTag.EXACT then
        smapSet (toU16 (r.address + i)) (r.bytes.getD i Value.anyV).exact_value acc
      else acc) acc) []
  { cpu := cpu11, memory_values := mem }

/-- The ANY-memory expansion loop of `generateTestCases`: for every
input-memory byte that is not EXACT, not yet present in any case, and
that affects output (same address EXACT or SAME in some output region),
expand with the boundary values. -/
def memoryVariations (spec : OptimizationSpec) (cases0 : List TestCase) :
    List TestCase :=
  spec.input_memory.foldl (fun cases r =>
    (List.range r.bytes.length).foldl (fun cases i =>
      let addr := toU16 (r.address + i)
      if (r.bytes.getD i Value.anyV).type = ValueTag.EXACT ∨
         cases.any (fun tc => (mapFind addr tc.memory_values).isSome) then
        cases
      else
        let affects_output := spec.output_memory.any (fun out =>
          out.containsAddress addr &&
          ((out.bytes.getD (addr - out.address) Value.anyV).type = ValueTag.EXACT ∨
           (out.bytes.getD (addr - out.address) Value.anyV).type = ValueTag.SAME))
        if affects_output then
          createVariations Value.anyV
            (fun tc val => { tc with memory_values := smapSet addr val tc.memory_values })
            cases
        else cases) cases) cases0

/-- `generateTestCases` up to (but excluding) the `> 100` sampling
block: base case, then register/flag variations in source order, then
memory variations. -/
def presampleTestCases (spec : OptimizationSpec) : List TestCase :=
  let cases := [baseCase spec]
  let cases := createVariations spec.input_cpu.a (fun tc val => { tc with cpu := { tc.cpu with a := val } }) cases
  let cases := createVariations spec.input_cpu.x (fun tc val => { tc with cpu := { tc.cpu with x := val } }) cases
  let cases := createVariations spec.input_cpu.y (fun tc val => { tc with cpu := { tc.cpu with y := val } }) cases
  let cases := createVariations spec.input_cpu.sp (fun tc val => { tc with cpu := { tc.cpu with sp := val } }) cases
  let cases := createVariations spec.input_flags.c (fun tc val => { tc with cpu := { tc.cpu with c := val ≠ 0 } }) cases
  let cases := createVariations spec.input_flags.z (fun tc val => { tc with cpu := { tc.cpu with z := val ≠ 0 } }) cases
  let cases := createVariations spec.input_flags.i (fun tc val => { tc with cpu := { tc.cpu with i := val ≠ 0 } }) cases
  let cases := createVariations spec.input_flags.d (fun tc val => { tc with cpu := { tc.cpu with d := val ≠ 0 } }) cases
  let cases := createVariations spec.input_flags.b (fun tc val => { tc with cpu := { tc.cpu with b := val ≠ 0 } }) cases
  let cases := createVariations spec.input_flags.v (fun tc val => { tc with cpu := { tc.cpu with v := val ≠ 0 } }) cases
  let cases := createVariations spec.input_flags.n (fun tc val => { tc with cpu := { tc.cpu with n := val ≠ 0 } }) cases
  memoryVariations spec cases

/-- The `is_critical` classification in the sampling block: any stored
memory byte, or A, X or Y, holds a critical boundary value. -/
def isCriticalCase (tc : TestCase) : Bool :=
  tc.memory_values.any (fun p => testValues.contains p.2) ||
  testValues.contains tc.cpu.a ||
  testValues.contains tc.cpu.x ||
  testValues.contains tc.cpu.y

/-- The type of the `std::sample` call: given the non-critical pool and
the requested count, return the retained sub-list.  In the source this
is `std::sample(..., std::mt19937{std::random_device{}()})`: the
selection depends on a seed drawn anew from `std::random_device` at
every call, which is exactly the non-determinism the claims are about,
so the selection function is threaded as an explicit argument. -/
def Sampler : Type := List TestCase → Nat → List TestCase

/-- What every execution of `std::sample` guarantees regardless of the
RNG seed: the output has `min(n, size)` elements and preserves the
relative order of the selected elements. -/
def ValidSampler (f : Sampler) : Prop :=
  ∀ l n, (f l n).length = min n l.length ∧ (f l n).Sublist l

/-- `VerificationEngine::generateTestCases`, with the `std::sample`
selection supplied as an argument.  `100 - critical_cases.size()` is
computed in `size_t` arithmetic (`static_cast<size_t>` of an `int` and
`size_t` mixed expression), hence `cppSub64`. -/
def generateTestCases (spec : OptimizationSpec) (sampler : Sampler) :
    List TestCase :=
  let cases := presampleTestCases spec
  if 100 < cases.length then
    let critical := cases.filter (fun tc => isCriticalCase tc)
    let other := cases.filter (fun tc => !isCriticalCase tc)
    let sample_size := min (cppSub64 100 critical.length) other.length
    let sampled := sampler other sample_size
    critical ++ sampled
  else cases

/-- `VerificationEngine::matchesCPUState`: the chain of early-return
checks for registers and flags (EXACT compares against the spec byte,
SAME against the test case's initial state; flag EXACT values go
through `uint8_t != 0`). -/
def matchesCPUState (actual : CPUState) (tc : TestCase)
    (ec : SpecCPUState) (ef : SpecFlagState) : Bool :=
  if ec.a.type = ValueTag.EXACT ∧ actual.a ≠ ec.a.exact_value then false
  else if ec.a.type = ValueTag.SAME ∧ actual.a ≠ tc.cpu.a then false
  else if ec.x.type = ValueTag.EXACT ∧ actual.x ≠ ec.x.exact_value then false
  else if ec.x.type = ValueTag.SAME ∧ actual.x ≠ tc.cpu.x then false
  else if ec.y.type = ValueTag.EXACT ∧ actual.y ≠ ec.y.exact_value then false
  else if ec.y.type = ValueTag.SAME ∧ actual.y ≠ tc.cpu.y then false
  else if ec.sp.type = ValueTag.EXACT ∧ actual.sp ≠ ec.sp.exact_value then false
  else if ec.sp.type = ValueTag.SAME ∧ actual.sp ≠ tc.cpu.sp then false
  else if ef.c.type = ValueTag.EXACT ∧ actual.c ≠ (ef.c.exact_value ≠ 0) then false
  else if ef.c.type = ValueTag.SAME ∧ actual.c ≠ tc.cpu.c then false
  else if ef.z.type = ValueTag.EXACT ∧ actual.z ≠ (ef.z.exact_value ≠ 0) then false
  else if ef.z.type = ValueTag.SAME ∧ actual.z ≠ tc.cpu.z then false
  else if ef.i.type = ValueTag.EXACT ∧ actual.i ≠ (ef.i.exact_value ≠ 0) then false
  else if ef.i.type = ValueTag.SAME ∧ actual.i ≠ tc.cpu.i then false
  else if ef.d.type = ValueTag.EXACT ∧ actual.d ≠ (ef.d.exact_value ≠ 0) then false
  else if ef.d.type = ValueTag.SAME ∧ actual.d ≠ tc.cpu.d then false
  else if ef.b.type = ValueTag.EXACT ∧ actual.b ≠ (ef.b.exact_value ≠ 0) then false
  else if ef.b.type = ValueTag.SAME ∧ actual.b ≠ tc.cpu.b then false
  else if ef.v.type = ValueTag.EXACT ∧ actual.v ≠ (ef.v.exact_value ≠ 0) then false
  else if ef.v.type = ValueTag.SAME ∧ actual.v ≠ tc.cpu.v then false
  else if ef.n.type = ValueTag.EXACT ∧ actual.n ≠ (ef.n.exact_value ≠ 0) then false
  else if ef.n.type = ValueTag.SAME ∧ actual.n ≠ tc.cpu.n then false
  else true

/-- `VerificationEngine::matchesMemoryState`: every EXACT output byte
must read back as the spec value and every SAME byte as the test case's
initial value; a read exception (the address is outside every *input*
region, since `TrackedMemory::read` checks input regions) is caught and
fails the check, as does a SAME byte whose initial value is absent from
the test case. -/
def matchesMemoryState (m : TrackedMemory) (tc : TestCase)
    (expected : List MemoryRegionV) : Bool :=
  expected.all (fun r =>
    (List.range r.bytes.length).all (fun i =>
      let addr := toU16 (r.address + i)
      let cell := r.bytes.getD i Value.anyV
      if cell.type = ValueTag.EXACT then
        match (m.readM addr).2 with
        | none => false
        | some actual => actual == cell.exact_value
      else if cell.type = ValueTag.SAME then
        match (m.readM addr).2 with
        | none => false
        | some actual =>
          match mapFind addr tc.memory_values with
          | some initial => actual == initial
          | none => false
      else true))

/-- `VerificationEngine::hasUnauthorizedModifications`: some modified
address lies in no allowed (output) region. -/
def hasUnauthorizedModifications (m : TrackedMemory)
    (allowed : List MemoryRegionV) : Bool :=
  m.modified_addresses.any (fun addr =>
    !(allowed.any (fun r => r.containsAddress addr)))

/-- `VerificationEngine::runTest`, returning the pass/fail verdict
together with the final memory (so that the write-confinement claims
can speak about the writes of the run).  Setup: a fresh `TrackedMemory`
with the spec's regions installed, the test case's bytes and then the
candidate bytes primed via `initialize`, the CPU state set from the
test case, then `execute` at the spec's run address with the default
instruction budget. -/
def runTestFull (spec : OptimizationSpec) (seq : List Nat) (tc : TestCase) :
    Bool × TrackedMemory :=
  let mem0 : TrackedMemory :=
    { input_regions := spec.input_memory, output_regions := spec.output_memory }
  let mem1 := tc.memory_values.foldl (fun m p => m.initByte p.1 p.2) mem0
  let mem2 := seq.enum.foldl
    (fun m p => m.initByte (toU16 (spec.run_address + p.1)) p.2) mem1
  let out := execute tc.cpu mem2 spec.run_address SIZE_MAX
  let verdict :=
    if out.res.error ≠ ExecError.NONE then false
    else if !matchesCPUState out.cpu tc spec.output_cpu spec.output_flags then false
    else if !matchesMemoryState out.mem tc spec.output_memory then false
    else if hasUnauthorizedModifications out.mem spec.output_memory then false
    else true
  (verdict, out.mem)

/-- `VerificationEngine::verify`: all generated test cases must pass
(the source short-circuits on the first failure; `List.all` is its
pure counterpart). -/
def verify (spec : OptimizationSpec) (sampler : Sampler) (seq : List Nat) :
    Bool :=
  (generateTestCases spec sampler).all (fun tc => (runTestFull spec seq tc).1)

/-- `VerificationEngine::getSize`. -/
def getSize (seq : List Nat) : Nat := seq.length

/-- `VerificationEngine::getCycles`: a fresh CPU and a fresh
`TrackedMemory` (note: *no* input or output regions are installed), the
sequence primed at `$1000`, then an isolated `execute` from `$1000`. -/
def getCycles (seq : List Nat) : Nat :=
  let mem0 : TrackedMemory := {}
  let mem1 := seq.enum.foldl
    (fun m p => m.initByte (toU16 (0x1000 + p.1)) p.2) mem0
  (execute { pc := 0x1000 } mem1 0x1000 SIZE_MAX).res.cycles

/-! ## Transformation cache (`transformation_cache.hpp`,
`src/transformation_cache.cpp`) -/

/-- `TransformationCache::StateDescription`: sorted register and memory
maps (`std::map` iteration order is key order; only equality is used
here). -/
structure StateDescription where
  registers : List (String × Nat) := []
  memory : List (Nat × Nat) := []
deriving DecidableEq, Repr

/-- `TransformationCache::TransformationKey`. -/
structure TransformationKey where
  input : StateDescription := {}
  output : StateDescription := {}
deriving DecidableEq, Repr

/-- `TransformationCache::CacheEntry` with the fields
`src/transformation_cache.cpp` actually reads and writes
(`size_optimal_sequence`, `size_optimal_cycles`,
`cycle_optimal_sequence`, `cycle_optimal_size`). -/
structure CacheEntry where
  size_optimal_sequence : List Nat := []
  size_optimal_cycles : Nat := 0
  cycle_optimal_sequence : List Nat := []
  cycle_optimal_size : Nat := 0
deriving DecidableEq, Repr

/-- The cache storage, an association list standing for the
`std::unordered_map` keyed by `TransformationKey`. -/
abbrev TransformationCacheT : Type := List (TransformationKey × CacheEntry)

/-- Find a cache entry. -/
def cacheFind (key : TransformationKey) : TransformationCacheT → Option CacheEntry
  | [] => none
  | (k, e) :: rest => if k = key then some e else cacheFind key rest

/-- Replace the entry of an existing key. -/
def cacheUpdate (key : TransformationKey) (e : CacheEntry) :
    TransformationCacheT → TransformationCacheT
  | [] => [(key, e)]
  | (k, e0) :: rest =>
    if k = key then (k, e) :: rest else (k, e0) :: cacheUpdate key e rest

/-- `TransformationCache::add(key, sequence, cycles)`, transcribed
verbatim: on a fresh key, both slots take the sequence (and
`cycle_optimal_size` takes `sequence.size()`); on an existing key, the
size slot is replaced when `sequence.size() < size_optimal_sequence.size()`
and — exactly as the source is written — the cycle slot is replaced when
`cycles < cycle_optimal_sequence.size()`, a comparison of the new cycle
count against the *byte length* of the stored sequence. -/
def cacheAdd (cache : TransformationCacheT) (key : TransformationKey)
    (sequence : List Nat) (cycles : Nat) : TransformationCacheT :=
  match cacheFind key cache with
  | none =>
    cacheUpdate key
      { size_optimal_sequence := sequence
        size_optimal_cycles := cycles
        cycle_optimal_sequence := sequence
        cycle_optimal_size := sequence.length } cache
  | some e =>
    let e1 :=
      if sequence.length < e.size_optimal_sequence.length then
        { e with size_optimal_sequence := sequence, size_optimal_cycles := cycles }
      else e
    let e2 :=
      if cycles < e1.cycle_optimal_sequence.length then
        { e1 with cycle_optimal_sequence := sequence, cycle_optimal_size := sequence.length }
      else e1
    cacheUpdate key e2 cache

/-- `TransformationCache::findOptimal`. -/
def cacheFindOptimal (cache : TransformationCacheT) (key : TransformationKey)
    (optimize_for_size : Bool) : Option (List Nat) :=
  match cacheFind key cache with
  | none => none
  | some e =>
    if optimize_for_size then some e.size_optimal_sequence
    else some e.cycle_optimal_sequence

/-! ## Sequence generator (`src/sequence_generator.cpp`) -/

/-- `SequenceGenerator::InstructionInfo` (mnemonic and addressing-mode
strings carry no logic and are omitted). -/
structure InstructionInfo where
  opcode : Nat
  bytesI : Nat
  cyclesI : Nat
deriving DecidableEq, Repr

/-- The `opcode_info` table of `SequenceGenerator::initOpcodeInfo`. -/
def opcodeInfoTable : List (Nat × InstructionInfo) :=
  [(0xA9, ⟨0xA9, 2, 2⟩), (0x85, ⟨0x85, 2, 3⟩), (0x95, ⟨0x95, 2, 4⟩),
   (0x8D, ⟨0x8D, 3, 4⟩), (0x9D, ⟨0x9D, 3, 5⟩), (0x99, ⟨0x99, 3, 5⟩),
   (0xA2, ⟨0xA2, 2, 2⟩), (0xA0, ⟨0xA0, 2, 2⟩), (0x18, ⟨0x18, 1, 2⟩),
   (0x38, ⟨0x38, 1, 2⟩), (0xE8, ⟨0xE8, 1, 2⟩), (0xC8, ⟨0xC8, 1, 2⟩),
   (0xCA, ⟨0xCA, 1, 2⟩), (0x88, ⟨0x88, 1, 2⟩), (0xE6, ⟨0xE6, 2, 5⟩),
   (0xC6, ⟨0xC6, 2, 5⟩), (0x69, ⟨0x69, 2, 2⟩), (0xC9, ⟨0xC9, 2, 2⟩),
   (0xD0, ⟨0xD0, 2, 2⟩), (0xF0, ⟨0xF0, 2, 2⟩), (0x90, ⟨0x90, 2, 2⟩),
   (0xB0, ⟨0xB0, 2, 2⟩), (0x4C, ⟨0x4C, 3, 3⟩), (0xEA, ⟨0xEA, 1, 2⟩),
   (0x00, ⟨0x00, 1, 7⟩)]

/-- `SequenceGenerator::getInstructionInfo`: table lookup with the
default `InstructionInfo(opcode, 1, 2, ...)` for unknown opcodes. -/
def getInstructionInfo (opcode : Nat) : InstructionInfo :=
  (opcodeInfoTable.lookup opcode).getD ⟨opcode, 1, 2⟩

/-- The single-byte operand values tried by
`generateOperandCombinations`. -/
def operandValues1 : List Nat := [0x00, 0x01, 0x20, 0x40, 0x80, 0xFF]

/-- The two-byte operand values tried by
`generateOperandCombinations` (emitted little-endian). -/
def operandValues2 : List Nat := [0x0000, 0x0020, 0x0080, 0x0100, 0x2000, 0x3000]

/-- `SequenceGenerator::generateSequencesRecursive` together with its
unique callee `generateOperandCombinations` (inlined at its only call
site).  The extra `fuel` argument makes the C++ termination measure
explicit: every instruction consumes at least one byte, so the C++
recursion depth is bounded by `remaining`, and the entry point below
passes `fuel = remaining`; the fuel-0/`remaining > 0` row is therefore
never reached from the entry point. -/
def genRecF (valid : List Nat) : Nat → List Nat → Nat → List (List Nat)
  | _, current, 0 => [current]
  | 0, _, _ + 1 => []
  | fuel + 1, current, remN + 1 =>
    let remaining := remN + 1
    valid.flatMap (fun opcode =>
      let info := getInstructionInfo opcode
      if info.bytesI ≤ remaining then
        -- generateOperandCombinations(current ++ [opcode], info, remaining - 1)
        let current1 := current ++ [opcode]
        let rem1 := remaining - 1
        let operand_bytes := info.bytesI - 1
        if operand_bytes = 0 then
          genRecF valid fuel current1 rem1
        else if operand_bytes = 1 then
          operandValues1.flatMap (fun operand =>
            genRecF valid fuel (current1 ++ [operand]) (rem1 - 1))
        else if operand_bytes = 2 then
          operandValues2.flatMap (fun operand =>
            genRecF valid fuel
              (current1 ++ [operand &&& 0xFF, (operand >>> 8) &&& 0xFF])
              (rem1 - 2))
        else []
      else [])

/-- The raw sequence list of `generateSequencesOfLength` before
pruning: `generateSequencesRecursive(base, length)` with an empty
base. -/
def rawSequencesOfLength (valid : List Nat) (length : Nat) : List (List Nat) :=
  genRecF valid length [] length

/-- `SequenceGenerator::hasNoEffect`: an all-NOP sequence. -/
def hasNoEffect (sequence : List Nat) : Bool :=
  decide (0 < sequence.length) && sequence.all (fun b => b == 0xEA)

/-- The loop bound `sequence.size() - 2` of
`hasRedundantInstructions`, computed in `size_t` arithmetic: for
`size() < 2` it wraps around to a value near `2^64`. -/
def redundantLoopBound (length : Nat) : Nat := cppSub64 length 2

/-- `SequenceGenerator::hasRedundantInstructions`: scan for
`LDA #x` immediately followed by `LDA #y`.  `sequence[i]` is
`std::vector::operator[]`, which performs no bounds check; the
out-of-range accesses that occur when the loop bound has wrapped are
embedded as reads of the default byte 0 (`List.getD`), and the claim
about their well-formedness is stated separately via
`redundantAccessesInBounds`. -/
def hasRedundantInstructions (sequence : List Nat) : Bool :=
  (List.range (redundantLoopBound sequence.length)).any (fun i =>
    sequence.getD i 0 == 0xA9 && sequence.getD (i + 2) 0 == 0xA9)

/-- In-bounds-ness of every `sequence[i]` / `sequence[i+2]` access the
`hasRedundantInstructions` loop performs. -/
def redundantAccessesInBounds (sequence : List Nat) : Prop :=
  ∀ i, i < redundantLoopBound sequence.length → i + 2 < sequence.length

/-- `SequenceGenerator::shouldPrune`. -/
def shouldPrune (sequence : List Nat) : Bool :=
  hasNoEffect sequence || hasRedundantInstructions sequence

/-- `SequenceGenerator::generateSequencesOfLength`: generate raw
sequences, drop the pruned ones (`pruneInvalidSequences`), then
`resize(10000)` when more survive. -/
def generateSequencesOfLength (valid : List Nat) (length : Nat) :
    List (List Nat) :=
  let raw := rawSequencesOfLength valid length
  let pruned := raw.filter (fun s => !shouldPrune s)
  pruned.take 10000

/-- The persistent state of `SequenceGenerator`. -/
structure GenState where
  current_length : Nat
  max_length : Nat
  valid_opcodes : List Nat
  current_combination_index : Nat
  current_sequences : List (List Nat)
deriving DecidableEq, Repr

/-- `SequenceGenerator::reset`. -/
def GenState.reset (g : GenState) : GenState :=
  { g with
    current_length := 1
    current_combination_index := 0
    current_sequences := generateSequencesOfLength g.valid_opcodes 1 }

/-- `SequenceGenerator::setValidOpcodes`. -/
def GenState.setValidOpcodes (g : GenState) (opcodes : List Nat) : GenState :=
  GenState.reset { g with valid_opcodes := opcodes }

/-- `SequenceGenerator::setMaxLength` (resets when the current length
exceeds the new bound). -/
def GenState.setMaxLength (g : GenState) (max_length : Nat) : GenState :=
  let g' := { g with max_length := max_length }
  if max_length < g'.current_length then g'.reset else g'

/-- `SequenceGenerator::next`: emit the next stored sequence, or move
to the next length, regenerate, and emit (returning `none` when the
length bound is exceeded or the fresh batch is empty). -/
def GenState.next (g : GenState) : Option (List Nat) × GenState :=
  if g.current_sequences.length ≤ g.current_combination_index then
    let g1 := { g with
      current_length := g.current_length + 1
      current_combination_index := 0 }
    if g1.max_length < g1.current_length then (none, g1)
    else
      let g2 := { g1 with
        current_sequences :=
          generateSequencesOfLength g1.valid_opcodes g1.current_length }
      if g2.current_sequences.isEmpty then (none, g2)
      else
        (some (g2.current_sequences.getD g2.current_combination_index []),
         { g2 with current_combination_index := g2.current_combination_index + 1 })
  else
    (some (g.current_sequences.getD g.current_combination_index []),
     { g with current_combination_index := g.current_combination_index + 1 })

/-- The generator state after `n` calls to `next`. -/
def GenState.stateAfter (g : GenState) : Nat → GenState
  | 0 => g
  | n + 1 => (GenState.stateAfter g n).next.2

/-- The sequence emitted by the `(n+1)`-st call to `next` (`n = 0` is
the first call). -/
def GenState.emittedAt (g : GenState) (n : Nat) : Option (List Nat) :=
  (g.stateAfter n).next.1

/-! ## Optimizer driver (`src/optimizer.cpp`)

`Optimizer::optimize` pulls candidates from the generator, rewrites
each through `optimizeWithCache`, verifies, and tracks the best
solution.  The loop is embedded over an explicit list of candidates
(the stream the generator produces; the deadline check, which can only
cut the stream short, and the `setMaxLength` call inside the
verified-candidate branch, which can only alter later candidates, are
subsumed by quantifying over every stream).  The cache-based rewrite
`optimizeWithCache` is likewise an arbitrary function argument: the
theorems proved below hold for every rewrite, in particular the real
one. -/

/-- The accumulator of the optimize loop. -/
structure OptState where
  best_solution : List Nat := []
  best_metric : Nat := SIZE_MAX
  cache : TransformationCacheT := []
  done : Bool := false
deriving Repr

/-- One iteration of the `while` loop of `Optimizer::optimize` for a
candidate (`rw` is `optimizeWithCache`, `keyOf` is
`extractTransformation`). -/
def optimizeStep (spec : OptimizationSpec) (sampler : Sampler)
    (rw : List Nat → List Nat) (keyOf : List Nat → TransformationKey)
    (st : OptState) (candidate : List Nat) : OptState :=
  if st.done then st
  else
    let optimized := rw candidate
    if verify spec sampler optimized then
      let metric :=
        match spec.goal with
        | Goal.SIZE => getSize optimized
        | Goal.SPEED => getCycles optimized
      let st1 :=
        if metric < st.best_metric then
          let st1 := { st with best_solution := optimized, best_metric := metric }
          if spec.goal = Goal.SIZE then { st1 with done := true }
          else if optimized.length > st1.best_solution.length + 4 then
            { st1 with done := true }
          else st1
        else st
      { st1 with cache := cacheAdd st1.cache (keyOf optimized) optimized (getCycles optimized) }
    else st

/-- `Optimizer::optimize` over a candidate stream: fold the loop body
and return the best solution (initially the empty vector). -/
def optimizeLoop (spec : OptimizationSpec) (sampler : Sampler)
    (rw : List Nat → List Nat) (keyOf : List Nat → TransformationKey)
    (candidates : List (List Nat)) : List Nat :=
  (candidates.foldl (optimizeStep spec sampler rw keyOf) {}).best_solution

/-! ## Concrete instances and auxiliary definitions used by the
claim-level statements -/

/-- A `std::sample` behavior that keeps the first `n` pool elements
(one admissible selection for some RNG draw). -/
def takeSampler : Sampler := fun l n => l.take n

/-- A `std::sample` behavior that keeps the last `n` pool elements
(another admissible selection). -/
def lastSampler : Sampler := fun l n => l.drop (l.length - n)

/-- A specification whose admissible inputs exercise the sampling
branch of `generateTestCases`: A, X and Y are pinned to the non-boundary
byte 5, while SP and the C and Z flags are ANY, giving `5 * 5 * 5 = 125`
pre-sampling cases, none of which carries a critical boundary value in
memory, A, X or Y. -/
def samplingSpec : OptimizationSpec :=
  { goal := Goal.SIZE
    run_address := 0x1000
    input_cpu := ⟨Value.exact 5, Value.exact 5, Value.exact 5, Value.anyV⟩
    input_flags := ⟨Value.anyV, Value.anyV, Value.exact 0, Value.exact 0,
      Value.exact 0, Value.exact 0, Value.exact 0⟩
    input_memory := []
    output_cpu := ⟨Value.anyV, Value.anyV, Value.anyV, Value.anyV⟩
    output_flags := ⟨Value.anyV, Value.anyV, Value.anyV, Value.anyV,
      Value.anyV, Value.anyV, Value.anyV⟩
    output_memory := [] }

/-- A fully EXACT specification: `generateTestCases` produces just the
base case, far below the sampling bound. -/
def exactSpec : OptimizationSpec :=
  { goal := Goal.SIZE
    run_address := 0x1000
    input_cpu := ⟨Value.exact 1, Value.exact 2, Value.exact 3, Value.exact 0xFF⟩
    input_flags := ⟨Value.exact 0, Value.exact 0, Value.exact 0, Value.exact 0,
      Value.exact 0, Value.exact 0, Value.exact 0⟩
    input_memory := []
    output_cpu := ⟨Value.anyV, Value.anyV, Value.anyV, Value.anyV⟩
    output_flags := ⟨Value.anyV, Value.anyV, Value.anyV, Value.anyV,
      Value.anyV, Value.anyV, Value.anyV⟩
    output_memory := [] }

/-- A memory whose single input region holds `BRK` followed by `NOP`:
`00 EA` at `$1000`. -/
def brkMemory : TrackedMemory :=
  (({ input_regions := [⟨0x1000, [Value.anyV, Value.anyV]⟩] } :
      TrackedMemory).initByte 0x1000 0x00).initByte 0x1001 0xEA

/-- A memory holding `LDA $12F0,X` (`BD F0 12`) at `$1000`, with input
regions covering the three code bytes and the page `$12F0`–`$130F`, so
that the indexed effective addresses `$1300` (X = `$10`, page crossed)
and `$12F5` (X = `$05`) are both readable — the setting of the spec's
page-cross scenario. -/
def ldaAbsXMemory : TrackedMemory :=
  ((({ input_regions :=
        [⟨0x1000, [Value.anyV, Value.anyV, Value.anyV]⟩,
         ⟨0x12F0, List.replicate 32 Value.anyV⟩] } :
      TrackedMemory).initByte 0x1000 0xBD).initByte
        0x1001 0xF0).initByte 0x1002 0x12

/-- The common length of the sequences stored in the generator's
current batch (`current_length` when the batch is empty). -/
def batchLen (g : GenState) : Nat :=
  match g.current_sequences with
  | [] => g.current_length
  | s :: _ => s.length

/-- The invariant `next` maintains: the stored batch is
length-uniform and its length never exceeds `current_length` (after the
exhaustion quirk — `next` returning `false` leaves the old batch in
place while `current_length` keeps growing — the two can differ). -/
def GenInv (g : GenState) : Prop :=
  (∀ s ∈ g.current_sequences, s.length = batchLen g) ∧
  batchLen g ≤ g.current_length

instance (g : GenState) : Decidable (GenInv g) := by
  unfold GenInv
  infer_instance

/-- The numeric value of a decimal digit string (what `std::stoi`
computes for it). -/
def decLiteralValue (s : List Char) : Nat :=
  s.foldl (fun acc c => acc * 10 + (c.toNat - '0'.toNat)) 0

/-- A generator state as after `setValidOpcodes({0xA9})`: the alphabet
holds only the two-byte `LDA #imm`, so the length-1 batch is empty and
the first emissions come from the length-2 batch. -/
def genStateA9 : GenState :=
  GenState.reset
    { current_length := 1, max_length := 32, valid_opcodes := [0xA9],
      current_combination_index := 0, current_sequences := [] }

/-! ## Core facts about `CPU6502::execute`

The loop of `execute` exits in exactly two ways: an exception during a
step (`error := INVALID_INSTRUCTION`) or the instruction budget running
out (`error := EXECUTION_LIMIT_REACHED`).  The `completed = true`
post-loop branch requires `instructions < max_instructions` at loop
exit, which the loop condition makes impossible, so `error` is never
`NONE` on return — BRK sets `completed` but does not stop the loop. -/

theorem execLoadImm_instructions (set st1 mem1 res1) :
    (execLoadImm set st1 mem1 res1).1.res.instructions = res1.instructions := by
  unfold execLoadImm
  try dsimp only
  repeat' split
  all_goals rfl

theorem execSTAzp_instructions (st1 mem1 res1) :
    (execSTAzp st1 mem1 res1).1.res.instructions = res1.instructions := by
  unfold execSTAzp
  try dsimp only
  repeat' split
  all_goals rfl

theorem execSTAzpX_instructions (st1 mem1 res1) :
    (execSTAzpX st1 mem1 res1).1.res.instructions = res1.instructions := by
  unfold execSTAzpX
  try dsimp only
  repeat' split
  all_goals rfl

theorem execSTAabs_instructions (idx st1 mem1 res1) :
    (execSTAabs idx st1 mem1 res1).1.res.instructions = res1.instructions := by
  unfold execSTAabs
  try dsimp only
  repeat' split
  all_goals rfl

theorem execIncDecZp_instructions (delta st1 mem1 res1) :
    (execIncDecZp delta st1 mem1 res1).1.res.instructions = res1.instructions := by
  unfold execIncDecZp
  try dsimp only
  repeat' split
  all_goals rfl

theorem execADCimm_instructions (st1 mem1 res1) :
    (execADCimm st1 mem1 res1).1.res.instructions = res1.instructions := by
  unfold execADCimm
  try dsimp only
  repeat' split
  all_goals rfl

theorem execCMPimm_instructions (st1 mem1 res1) :
    (execCMPimm st1 mem1 res1).1.res.instructions = res1.instructions := by
  unfold execCMPimm
  try dsimp only
  repeat' split
  all_goals rfl

theorem execBranch_instructions (cond st1 mem1 res1) :
    (execBranch cond st1 mem1 res1).1.res.instructions = res1.instructions := by
  unfold execBranch
  try dsimp only
  repeat' split
  all_goals rfl

theorem execJMPabs_instructions (st1 mem1 res1) :
    (execJMPabs st1 mem1 res1).1.res.instructions = res1.instructions := by
  unfold execJMPabs
  try dsimp only
  repeat' split
  all_goals rfl

/-- `executeInstruction` never touches `execResult.instructions`; only
the caller's `execResult.instructions++` does. -/
theorem step_instructions (s : Machine) :
    (step s).1.res.instructions = s.res.instructions := by
  unfold step
  try dsimp only
  repeat' split
  case h_1 => rfl
  case h_2 opc opcode heq =>
    by_cases h1 : opcode = 169
    · rw [if_pos h1, execLoadImm_instructions]
    rw [if_neg h1]
    by_cases h2 : opcode = 133
    · rw [if_pos h2, execSTAzp_instructions]
    rw [if_neg h2]
    by_cases h3 : opcode = 149
    · rw [if_pos h3, execSTAzpX_instructions]
    rw [if_neg h3]
    by_cases h4 : opcode = 141
    · rw [if_pos h4, execSTAabs_instructions]
    rw [if_neg h4]
    by_cases h5 : opcode = 157
    · rw [if_pos h5, execSTAabs_instructions]
    rw [if_neg h5]
    by_cases h6 : opcode = 153
    · rw [if_pos h6, execSTAabs_instructions]
    rw [if_neg h6]
    by_cases h7 : opcode = 162
    · rw [if_pos h7, execLoadImm_instructions]
    rw [if_neg h7]
    by_cases h8 : opcode = 160
    · rw [if_pos h8, execLoadImm_instructions]
    rw [if_neg h8]
    by_cases h9 : opcode = 24
    · rw [if_pos h9]
    rw [if_neg h9]
    by_cases h10 : opcode = 56
    · rw [if_pos h10]
    rw [if_neg h10]
    by_cases h11 : opcode = 232
    · rw [if_pos h11]
    rw [if_neg h11]
    by_cases h12 : opcode = 200
    · rw [if_pos h12]
    rw [if_neg h12]
    by_cases h13 : opcode = 202
    · rw [if_pos h13]
    rw [if_neg h13]
    by_cases h14 : opcode = 136
    · rw [if_pos h14]
    rw [if_neg h14]
    by_cases h15 : opcode = 230
    · rw [if_pos h15, execIncDecZp_instructions]
    rw [if_neg h15]
    by_cases h16 : opcode = 198
    · rw [if_pos h16, execIncDecZp_instructions]
    rw [if_neg h16]
    by_cases h17 : opcode = 105
    · rw [if_pos h17, execADCimm_instructions]
    rw [if_neg h17]
    by_cases h18 : opcode = 201
    · rw [if_pos h18, execCMPimm_instructions]
    rw [if_neg h18]
    by_cases h19 : opcode = 208
    · rw [if_pos h19, execBranch_instructions]
    rw [if_neg h19]
    by_cases h20 : opcode = 240
    · rw [if_pos h20, execBranch_instructions]
    rw [if_neg h20]
    by_cases h21 : opcode = 144
    · rw [if_pos h21, execBranch_instructions]
    rw [if_neg h21]
    by_cases h22 : opcode = 176
    · rw [if_pos h22, execBranch_instructions]
    rw [if_neg h22]
    by_cases h23 : opcode = 76
    · rw [if_pos h23, execJMPabs_instructions]
    rw [if_neg h23]
    by_cases h24 : opcode = 234
    · rw [if_pos h24]
    rw [if_neg h24]
    by_cases h25 : opcode = 0
    · rw [if_pos h25]
    rw [if_neg h25]


theorem execGo_error_ne_none (fuel : Nat) :
    ∀ (max_instructions : Nat) (s : Machine),
      s.res.instructions + fuel = max_instructions →
      (execGo max_instructions fuel s).res.error ≠ ExecError.NONE := by
  induction fuel with
  | zero =>
    intro max s h
    simp only [execGo]
    rw [if_pos (by omega)]
    simp
  | succ f ih =>
    intro max s h
    simp only [execGo]
    rcases hs : step s with ⟨s', ok⟩
    cases ok with
    | true =>
      have hinstr : s'.res.instructions = s.res.instructions := by
        have := step_instructions s
        rw [hs] at this
        exact this
      simpa using ih max _ (by simp [hinstr]; omega)
    | false => simp

/-- `CPU6502::execute` never returns with `error == NONE`, whatever the
memory, start address and instruction budget. -/
theorem execute_error_ne_none (st : CPUState) (mem : TrackedMemory)
    (start max_instructions : Nat) :
    (execute st mem start max_instructions).res.error ≠ ExecError.NONE := by
  unfold execute
  exact execGo_error_ne_none max_instructions max_instructions _ (by simp)

/-- Every single test case fails: `runTest` checks
`result.error != NONE` first, and that check always fires. -/
theorem runTest_false (spec : OptimizationSpec) (seq : List Nat)
    (tc : TestCase) : (runTestFull spec seq tc).1 = false := by
  unfold runTestFull
  simp only
  rw [if_pos (execute_error_ne_none _ _ _ _)]

/-- A property preserved by each step of a fold is preserved by the
whole fold. -/
theorem foldl_preserves {α : Type _} {β : Type _} (f : α → β → α)
    (P : α → Prop) (h : ∀ a b, P a → P (f a b)) :
    ∀ (l : List β) (a : α), P a → P (l.foldl f a) := by
  intro l
  induction l with
  | nil => intro a ha; simpa using ha
  | cons b rest ih => intro a ha; exact ih (f a b) (h a b ha)

/-- `createVariations` never turns a non-empty case list empty (each
case expands into the five boundary cases, or the list is kept). -/
theorem createVariations_ne_nil (v : Value)
    (setter : TestCase → Nat → TestCase) (cases : List TestCase)
    (h : cases ≠ []) : createVariations v setter cases ≠ [] := by
  unfold createVariations
  split
  · rcases cases with _ | ⟨tc, rest⟩
    · exact absurd rfl h
    · simp [List.flatMap_cons, testValues]
  · exact h

/-- The memory-variation loop preserves non-emptiness. -/
theorem memoryVariations_ne_nil (spec : OptimizationSpec)
    (cases : List TestCase) (h : cases ≠ []) :
    memoryVariations spec cases ≠ [] := by
  unfold memoryVariations
  refine foldl_preserves _ (fun l => l ≠ []) ?_ _ _ h
  intro a r ha
  refine foldl_preserves _ (fun l => l ≠ []) ?_ _ _ ha
  intro a' i ha'
  dsimp only
  split
  · exact ha'
  · split
    · exact createVariations_ne_nil _ _ _ ha'
    · exact ha'

/-- The pre-sampling test-case list always contains at least the base
case. -/
theorem presampleTestCases_ne_nil (spec : OptimizationSpec) :
    presampleTestCases spec ≠ [] := by
  unfold presampleTestCases
  apply memoryVariations_ne_nil
  repeat
    apply createVariations_ne_nil
  simp

/-- Splitting a list by a predicate preserves total length. -/
theorem filter_split_length (p : TestCase → Bool) (l : List TestCase) :
    (l.filter p).length + (l.filter (fun x => !p x)).length = l.length := by
  induction l with
  | nil => simp
  | cons x rest ih =>
    by_cases hx : p x <;> simp [List.filter_cons, hx] <;> omega

/-- `generateTestCases` never returns an empty list when the sampler
really behaves like `std::sample`. -/
theorem generateTestCases_ne_nil (spec : OptimizationSpec)
    (sampler : Sampler) (hs : ValidSampler sampler) :
    generateTestCases spec sampler ≠ [] := by
  unfold generateTestCases
  intro hnil
  by_cases hlen : 100 < (presampleTestCases spec).length
  · rw [if_pos hlen] at hnil
    rcases List.append_eq_nil.mp hnil with ⟨hcrit, hsamp⟩
    have hclen : ((presampleTestCases spec).filter (fun tc => isCriticalCase tc)).length = 0 := by
      rw [hcrit]; rfl
    have hother :
        ((presampleTestCases spec).filter (fun tc => !isCriticalCase tc)).length =
          (presampleTestCases spec).length := by
      have := filter_split_length (fun tc => isCriticalCase tc) (presampleTestCases spec)
      omega
    have hsz := (hs ((presampleTestCases spec).filter (fun tc => !isCriticalCase tc))
      (min (cppSub64 100 ((presampleTestCases spec).filter (fun tc => isCriticalCase tc)).length)
         ((presampleTestCases spec).filter (fun tc => !isCriticalCase tc)).length)).1
    rw [hsamp] at hsz
    have hc100 : cppSub64 100 0 = 100 := by decide
    rw [hclen, hc100, hother] at hsz
    simp only [List.length_nil] at hsz
    omega
  · rw [if_neg hlen] at hnil
    exact presampleTestCases_ne_nil spec hnil

/-- `verify` rejects every sequence: the generated test-case list is
never empty (the base case is always pushed, expansions only multiply,
and `std::sample` returns `min(n, size)` elements), and every test case
fails. -/
theorem verify_false (spec : OptimizationSpec) (sampler : Sampler)
    (hs : ValidSampler sampler) (seq : List Nat) :
    verify spec sampler seq = false := by
  unfold verify
  rcases hgen : generateTestCases spec sampler with _ | ⟨tc, rest⟩
  · exfalso
    exact generateTestCases_ne_nil spec sampler hs hgen
  · simp [List.all_cons, runTest_false]

/-! ## Facts about the sequence generator -/

/-- Every sequence produced by `generateSequencesRecursive` extends the
partial sequence by exactly `remaining` bytes: each iteration appends
one instruction of `info.bytes` bytes and recurses on
`remaining - info.bytes`. -/
theorem genRecF_mem_length (fuel : Nat) :
    ∀ (valid current : List Nat) (remaining : Nat), remaining ≤ fuel →
      ∀ s ∈ genRecF valid fuel current remaining,
        s.length = current.length + remaining := by
  induction fuel with
  | zero =>
    intro valid current remaining hle s hs
    interval_cases remaining
    simp only [genRecF, List.mem_singleton] at hs
    simp [hs]
  | succ f ih =>
    intro valid current remaining hle s hs
    match remaining, hs with
    | 0, hs =>
      simp only [genRecF, List.mem_singleton] at hs
      simp [hs]
    | (remN + 1), hs =>
      simp only [genRecF] at hs
      rw [List.mem_flatMap] at hs
      obtain ⟨opcode, _, hs⟩ := hs
      set info := getInstructionInfo opcode with hinfo
      by_cases hb : info.bytesI ≤ remN + 1
      · rw [if_pos hb] at hs
        by_cases h0 : info.bytesI - 1 = 0
        · rw [if_pos h0] at hs
          have := ih valid (current ++ [opcode]) (remN + 1 - 1) (by omega) s hs
          simp only [List.length_append, List.length_cons, List.length_nil] at this
          omega
        · rw [if_neg h0] at hs
          by_cases h1 : info.bytesI - 1 = 1
          · rw [if_pos h1] at hs
            rw [List.mem_flatMap] at hs
            obtain ⟨operand, _, hs⟩ := hs
            have := ih valid (current ++ [opcode] ++ [operand])
              (remN + 1 - 1 - 1) (by omega) s hs
            simp only [List.length_append, List.length_cons, List.length_nil] at this
            omega
          · rw [if_neg h1] at hs
            by_cases h2 : info.bytesI - 1 = 2
            · rw [if_pos h2] at hs
              rw [List.mem_flatMap] at hs
              obtain ⟨operand, _, hs⟩ := hs
              have := ih valid
                (current ++ [opcode] ++ [operand &&& 0xFF, (operand >>> 8) &&& 0xFF])
                (remN + 1 - 1 - 2) (by omega) s hs
              simp only [List.length_append, List.length_cons, List.length_nil] at this
              omega
            · rw [if_neg h2] at hs
              cases hs
      · rw [if_neg hb] at hs
        cases hs

/-- Every sequence in a generated batch has exactly the requested byte
length. -/
theorem generateSequencesOfLength_mem_length (valid : List Nat) (L : Nat) :
    ∀ s ∈ generateSequencesOfLength valid L, s.length = L := by
  intro s hs
  unfold generateSequencesOfLength at hs
  have hs1 := List.mem_of_mem_take hs
  have hs2 := List.mem_of_mem_filter hs1
  have := genRecF_mem_length L valid [] L (le_refl L) s hs2
  simpa using this

/-- One `next` call: the batch invariant is preserved, the batch length
never decreases, and an emitted sequence has exactly the new batch
length. -/
theorem next_preserves (g : GenState) (hInv : GenInv g) :
    GenInv g.next.2 ∧ batchLen g ≤ batchLen g.next.2 ∧
      ∀ s, g.next.1 = some s → s.length = batchLen g.next.2 := by
  obtain ⟨huni, hle⟩ := hInv
  unfold GenState.next
  dsimp only
  by_cases hidx : g.current_sequences.length ≤ g.current_combination_index
  · rw [if_pos hidx]
    by_cases hmax : g.max_length < g.current_length + 1
    · rw [if_pos hmax]
      rcases hseqs : g.current_sequences with _ | ⟨s0, rest⟩
      · refine ⟨⟨?_, ?_⟩, ?_, ?_⟩
        · intro s hs; cases hs
        · simp [batchLen]
        · simp only [batchLen, hseqs]
          omega
        · intro s hs; cases hs
      · refine ⟨⟨?_, ?_⟩, ?_, ?_⟩
        · intro s hs
          have hmem : s ∈ g.current_sequences := by rw [hseqs]; exact hs
          have := huni s hmem
          simp only [batchLen, hseqs] at this ⊢
          exact this
        · simp only [batchLen, hseqs] at hle ⊢
          omega
        · simp only [batchLen, hseqs]
          omega
        · intro s hs; cases hs
    · rw [if_neg hmax]
      rcases hgen :
          generateSequencesOfLength g.valid_opcodes (g.current_length + 1) with
        _ | ⟨s0, rest⟩
      · simp only [List.isEmpty_nil, eq_self_iff_true, if_true]
        refine ⟨⟨?_, ?_⟩, ?_, ?_⟩
        · intro s hs; cases hs
        · simp [batchLen]
        · rcases hseqs : g.current_sequences with _ | ⟨t0, trest⟩
          · simp only [batchLen, hseqs]
            omega
          · simp only [batchLen, hseqs] at hle ⊢
            omega
        · intro s hs; cases hs
      · simp only [List.isEmpty_cons, Bool.false_eq_true, if_false]
        have hall := generateSequencesOfLength_mem_length g.valid_opcodes
          (g.current_length + 1)
        rw [hgen] at hall
        have hs0 : s0.length = g.current_length + 1 := hall s0 (by simp)
        refine ⟨⟨?_, ?_⟩, ?_, ?_⟩
        · intro s hs
          simp only [batchLen]
          rw [hall s hs, hs0]
        · simp only [batchLen]
          omega
        · rcases hseqs : g.current_sequences with _ | ⟨t0, trest⟩
          · simp only [batchLen, hseqs]
            omega
          · simp only [batchLen, hseqs] at hle ⊢
            omega
        · intro s hs
          simp only [List.getD_cons_zero, Option.some.injEq] at hs
          simp only [batchLen]
          rw [← hs, hs0]
  · rw [if_neg hidx]
    refine ⟨⟨?_, ?_⟩, le_refl _, ?_⟩
    · intro s hs; exact huni s hs
    · exact hle
    · intro s hs
      simp only [Option.some.injEq] at hs
      have hmem : s ∈ g.current_sequences := by
        rw [← hs, List.getD_eq_getElem _ _ (by omega)]
        exact List.getElem_mem _
      exact huni s hmem

/-- The batch invariant holds along the whole run of the generator. -/
theorem stateAfter_inv (g : GenState) (hInv : GenInv g) :
    ∀ n, GenInv (g.stateAfter n) := by
  intro n
  induction n with
  | zero => exact hInv
  | succ k ih => exact (next_preserves _ ih).1

/-- The batch length is monotone along the run. -/
theorem batchLen_mono (g : GenState) (hInv : GenInv g) :
    ∀ n m, n ≤ m → batchLen (g.stateAfter n) ≤ batchLen (g.stateAfter m) := by
  intro n m hnm
  induction m with
  | zero =>
    have : n = 0 := by omega
    simp [this]
  | succ k ih =>
    rcases Nat.lt_or_ge n (k + 1) with h | h
    · have h1 := ih (by omega)
      have h2 := (next_preserves _ (stateAfter_inv g hInv k)).2.1
      calc batchLen (g.stateAfter n) ≤ batchLen (g.stateAfter k) := h1
        _ ≤ batchLen (g.stateAfter (k + 1)) := h2
    · have : n = k + 1 := by omega
      simp [this]

/-! ## Facts about `getCycles` and the driver loop -/

/-- `TrackedMemory::initialize` only touches the byte map, never the
region vectors. -/
theorem initFold_input_regions (f : Nat × Nat → Nat) (h : Nat × Nat → Nat) :
    ∀ (l : List (Nat × Nat)) (m : TrackedMemory),
      (l.foldl (fun m p => m.initByte (f p) (h p)) m).input_regions =
        m.input_regions := by
  intro l
  induction l with
  | nil => intro m; rfl
  | cons p rest ih => intro m; exact ih _

/-- A fetch from a memory with no input regions faults. -/
theorem readM_no_regions (m : TrackedMemory) (addr : Nat)
    (h : m.input_regions = []) : (m.readM addr).2 = none := by
  unfold TrackedMemory.readM TrackedMemory.isReadAllowed
  rw [if_neg]
  simp [h]

/-- A faulting fetch makes `executeInstruction` throw immediately. -/
theorem step_fetch_fault (s : Machine) (h : (s.mem.readM s.cpu.pc).2 = none) :
    step s =
      (⟨{ s.cpu with pc := toU16 (s.cpu.pc + 1) },
        (s.mem.readM s.cpu.pc).1, s.res⟩, false) := by
  unfold step
  rcases hr : s.mem.readM s.cpu.pc with ⟨m1, o⟩
  rw [hr] at h
  simp only at h
  subst h
  rfl

/-- When the very first fetch faults, `execute` stops with
`INVALID_INSTRUCTION` and the fresh result — zero cycles, zero
instructions — plus the error. -/
theorem execute_first_fetch_faults (st : CPUState) (mem : TrackedMemory)
    (start max_instructions : Nat) (hmax : max_instructions ≠ 0)
    (h : mem.input_regions = []) :
    (execute st mem start max_instructions).res =
      { cycles := 0, instructions := 0, completed := false,
        error := ExecError.INVALID_INSTRUCTION } := by
  unfold execute
  rcases hfm : max_instructions with _ | f
  · exact absurd hfm hmax
  · have hstep := step_fetch_fault ⟨{ st with pc := start }, mem, {}⟩
      (readM_no_regions mem start h)
    simp only [execGo, hstep]

/-- C9.  `VerificationEngine::getCycles` returns 0 for every byte
sequence: the isolated cycle-counting run constructs a `TrackedMemory`
on which no input regions are installed, so the very first opcode fetch
at `$1000` raises a memory-read violation before any cycles accumulate;
under goal=SPEED the driver's metric for any verified candidate would
therefore be 0. -/
theorem getCycles_eq_zero (seq : List Nat) : getCycles seq = 0 := by
  show (execute { pc := 0x1000 }
      (seq.enum.foldl (fun m p => m.initByte (toU16 (0x1000 + p.1)) p.2)
        ({} : TrackedMemory)) 0x1000 SIZE_MAX).res.cycles = 0
  rw [execute_first_fetch_faults]
  · decide
  · exact initFold_input_regions _ _ _ _

/-- With verification rejecting everything, one optimizer loop
iteration leaves the accumulator untouched. -/
theorem optimizeStep_id (spec : OptimizationSpec) (sampler : Sampler)
    (hs : ValidSampler sampler) (rw0 : List Nat → List Nat)
    (keyOf : List Nat → TransformationKey) (st : OptState)
    (candidate : List Nat) :
    optimizeStep spec sampler rw0 keyOf st candidate = st := by
  unfold optimizeStep
  split
  · rfl
  · have hv := verify_false spec sampler hs (rw0 candidate)
    simp only [hv, Bool.false_eq_true, if_false]

/-- `hasUnauthorizedModifications` returning `false` really does mean
that every recorded write address lies in some allowed region. -/
theorem hasUnauthorized_false_writes_confined (m : TrackedMemory)
    (allowed : List MemoryRegionV)
    (h : hasUnauthorizedModifications m allowed = false) :
    ∀ a ∈ m.modified_addresses, ∃ r ∈ allowed, r.containsAddress a = true := by
  intro a ha
  unfold hasUnauthorizedModifications at h
  rw [List.any_eq_false] at h
  have := h a ha
  simp only [Bool.not_eq_true', Bool.not_eq_false] at this
  rw [List.any_eq_true] at this
  exact this

/-! ## Sampler instances and parsing facts -/

/-- Keeping the first `n` elements is an admissible `std::sample`
behavior. -/
theorem takeSampler_valid : ValidSampler takeSampler := by
  intro l n
  constructor
  · simp [takeSampler]
  · exact List.take_sublist _ _

/-- Keeping the last `n` elements is an admissible `std::sample`
behavior. -/
theorem lastSampler_valid : ValidSampler lastSampler := by
  intro l n
  constructor
  · simp [lastSampler]
    omega
  · exact List.drop_sublist _ _

/-- `stoiDigits` on an all-digit string folds up the decimal value and
consumes the whole string. -/
theorem stoiDigits_of_digits (s : List Char)
    (hdig : ∀ c ∈ s, '0' ≤ c ∧ c ≤ '9') :
    ∀ acc, stoiDigits 10 s acc =
      (s.foldl (fun a c => a * 10 + (c.toNat - '0'.toNat)) acc, s.length) := by
  induction s with
  | nil => intro acc; rfl
  | cons c rest ih =>
    intro acc
    have hc := hdig c (by simp)
    have hd : digitInBase 10 c = some (c.toNat - '0'.toNat) := by
      unfold digitInBase
      rw [if_pos hc]
      have h57 : c.toNat ≤ 57 := by
        have h := hc.2
        rw [Char.le_def] at h
        have h' : c.val.toNat ≤ ('9' : Char).val.toNat := h
        simpa [Char.toNat] using h'
      have h48 : ('0' : Char).toNat = 48 := rfl
      simp only
      rw [if_pos (by omega)]
    simp only [stoiDigits, hd]
    rw [ih (fun c' hc' => hdig c' (by simp [hc'])) (acc * 10 + (c.toNat - '0'.toNat))]
    simp [List.foldl_cons]

/-- `std::stoi` on a non-empty all-digit decimal string within `int`
range returns its value. -/
theorem stoi_decimal_of_digits (s : List Char) (hne : s ≠ [])
    (hdig : ∀ c ∈ s, '0' ≤ c ∧ c ≤ '9')
    (hbound : decLiteralValue s ≤ INT_MAX) :
    stoi s 10 = some (decLiteralValue s) := by
  unfold stoi
  rw [stoiDigits_of_digits s hdig 0]
  have hlen : s.length ≠ 0 := by
    intro h
    exact hne (List.length_eq_zero.mp h)
  unfold decLiteralValue at hbound ⊢
  simp only
  rw [if_neg hlen, if_pos hbound]

/-! ## Claim-level theorems -/

/-- C1.  The claim states that for goal=SIZE the driver returns a
minimum-length equivalent sequence, the first verified candidate.  On
the code this fails: `CPU6502::execute` never returns `error == NONE`
(BRK sets `completed` but the loop does not break, and the post-loop
`completed = true` branch is unreachable), so `verify` rejects every
candidate, the success branch of the loop is dead, and
`Optimizer::optimize` returns the initial empty `best_solution` for
*every* specification and candidate stream — not a minimum-length
equivalent sequence.  `rewriteSub` ranges over every candidate rewrite,
in particular the real `optimizeWithCache`. -/
theorem optimize_always_returns_empty (spec : OptimizationSpec)
    (sampler : Sampler) (hs : ValidSampler sampler)
    (rewriteSub : List Nat → List Nat)
    (keyOf : List Nat → TransformationKey)
    (candidates : List (List Nat)) :
    optimizeLoop spec sampler rewriteSub keyOf candidates = [] := by
  unfold optimizeLoop
  have hfold : ∀ (l : List (List Nat)) (st : OptState),
      l.foldl (optimizeStep spec sampler rewriteSub keyOf) st = st := by
    intro l
    induction l with
    | nil => intro st; rfl
    | cons c rest ih =>
      intro st
      rw [List.foldl_cons, optimizeStep_id spec sampler hs rewriteSub keyOf st c,
        ih st]
  rw [hfold]

/-- Witness for C1 at a concrete spec, sampler and stream. -/
theorem optimize_always_returns_empty_witness :
    optimizeLoop exactSpec takeSampler id
      (fun _ => ({} : TransformationKey)) [[0xA9, 0x00, 0x00]] = [] :=
  optimize_always_returns_empty exactSpec takeSampler takeSampler_valid id
    (fun _ => ({} : TransformationKey)) [[0xA9, 0x00, 0x00]]

/-- C2.  The claim states that BRK terminates execution immediately and
successfully (`completed = true`, `error = NONE`, nothing executed after
the BRK).  On the code, running `00 EA` (`BRK`, `NOP`) at `$1000` with
the input region covering exactly those two bytes gives `completed =
true` (BRK set it) but the loop continues: the NOP after the BRK is
executed (`instructions = 2`, `cycles = 7 + 2`), and the run ends with
`INVALID_INSTRUCTION` when the fetch of the third byte faults — not
with `error = NONE`. -/
theorem brk_sets_completed_but_run_continues :
    (execute {} brkMemory 0x1000 SIZE_MAX).res.completed = true ∧
    (execute {} brkMemory 0x1000 SIZE_MAX).res.error =
      ExecError.INVALID_INSTRUCTION ∧
    (execute {} brkMemory 0x1000 SIZE_MAX).res.instructions = 2 ∧
    (execute {} brkMemory 0x1000 SIZE_MAX).res.cycles = 9 := by
  refine ⟨?_, ?_, ?_, ?_⟩ <;> decide

/-- C3.  The claim states the cycle-optimal slot is replaced exactly
when the new `cycles` is below the stored entry's cycles.  The code
compares `cycles < cycle_optimal_sequence.size()` — the new cycle count
against the stored sequence's *byte length*.  Adding `A9 00` (2 bytes)
at 4 cycles and then `A2 00` (2 bytes) at 3 cycles keeps the 4-cycle
sequence in the cycle slot, because `3 < 2` fails, although `3 < 4`
(the header even carries a `cycle_optimal_cycles` field "added to store
the cycle count correctly" that `add` never consults). -/
theorem cache_add_cycle_slot_ignores_better_cycles :
    (cacheFind {} (cacheAdd (cacheAdd [] {} [0xA9, 0x00] 4) {}
        [0xA2, 0x00] 3)).map (fun e => e.cycle_optimal_sequence) =
      some [0xA9, 0x00] := by decide

/-- C4 counterexample.  The claim states `LDA $12F0,X` with `X = $10`
reports 5 cycles (4 + 1 page cross).  Opcode `0xBD` is not in the
simplified interpreter's switch: the run charges the default base of 2
cycles for the unknown opcode and then aborts with
`INVALID_INSTRUCTION`; it never reports 5. -/
theorem lda_absx_page_cross_reports_two_cycles :
    (execute { x := 0x10 } ldaAbsXMemory 0x1000 SIZE_MAX).res.cycles ≠ 5 ∧
    (execute { x := 0x10 } ldaAbsXMemory 0x1000 SIZE_MAX).res.cycles = 2 ∧
    (execute { x := 0x10 } ldaAbsXMemory 0x1000 SIZE_MAX).res.error =
      ExecError.INVALID_INSTRUCTION := by decide

/-- C4 amended.  Executing `LDA $12F0,X` raises `INVALID_INSTRUCTION`
(opcode `0xBD` is unimplemented) after charging the default base cost
of 2 cycles, for both `X = $10` (page crossed) and `X = $05` (no
cross); no page-cross penalty exists — `executeInstruction` always
calls `getInstructionCycles` with `page_cross` at its default `false`,
and `0xBD` is absent from the cycle table. -/
theorem lda_absx_unimplemented_two_cycles :
    ((execute { x := 0x10 } ldaAbsXMemory 0x1000 SIZE_MAX).res.cycles = 2 ∧
     (execute { x := 0x10 } ldaAbsXMemory 0x1000 SIZE_MAX).res.error =
       ExecError.INVALID_INSTRUCTION) ∧
    ((execute { x := 0x05 } ldaAbsXMemory 0x1000 SIZE_MAX).res.cycles = 2 ∧
     (execute { x := 0x05 } ldaAbsXMemory 0x1000 SIZE_MAX).res.error =
       ExecError.INVALID_INSTRUCTION) ∧
    getInstructionCycles 0xBD false = 2 := by decide

/-- C5.  For every candidate the verifier accepts, every address
written during every test-case run lies in some output region.  Two
mechanisms make this hold: `TrackedMemory::write` rejects (and
`runTest` therefore fails) any write outside the output regions, and
`hasUnauthorizedModifications` re-checks the recorded writes.  In the
code as it stands the antecedent is in fact never reached — `runTest`
always fails at the `result.error != NONE` check (see C2), so `verify`
accepts no candidate and the property holds with the left disjunct;
`hasUnauthorized_false_writes_confined` above gives the non-vacuous
half of the mechanism. -/
theorem verify_accept_implies_writes_confined (spec : OptimizationSpec)
    (sampler : Sampler) (seq : List Nat) :
    verify spec sampler seq = false ∨
      ∀ tc ∈ generateTestCases spec sampler,
        ∀ a ∈ (runTestFull spec seq tc).2.modified_addresses,
          ∃ r ∈ spec.output_memory, r.containsAddress a = true := by
  rcases hgen : generateTestCases spec sampler with _ | ⟨tc0, rest⟩
  · right
    intro tc htc
    cases htc
  · left
    unfold verify
    rw [hgen]
    simp [runTest_false]

/-- Witness for C5 at a concrete spec, sampler and sequence. -/
theorem verify_accept_implies_writes_confined_witness :
    verify exactSpec takeSampler [0xEA] = false ∨
      ∀ tc ∈ generateTestCases exactSpec takeSampler,
        ∀ a ∈ (runTestFull exactSpec [0xEA] tc).2.modified_addresses,
          ∃ r ∈ exactSpec.output_memory, r.containsAddress a = true :=
  verify_accept_implies_writes_confined exactSpec takeSampler [0xEA]

/-- C6.  Successive `next()` calls emit sequences of non-decreasing
byte length: each stored batch is length-uniform, a batch is only ever
replaced by one generated at a strictly larger `current_length`, and an
emission always comes from the current batch. -/
theorem generator_emits_nondecreasing_lengths (g : GenState)
    (hInv : GenInv g) (n m : Nat) (hnm : n ≤ m) (s t : List Nat)
    (hs : g.emittedAt n = some s) (ht : g.emittedAt m = some t) :
    s.length ≤ t.length := by
  have hIs := stateAfter_inv g hInv
  have hsl : s.length = batchLen (g.stateAfter (n + 1)) :=
    (next_preserves (g.stateAfter n) (hIs n)).2.2 s hs
  have htl : t.length = batchLen (g.stateAfter (m + 1)) :=
    (next_preserves (g.stateAfter m) (hIs m)).2.2 t ht
  rw [hsl, htl]
  exact batchLen_mono g hInv (n + 1) (m + 1) (by omega)

/-- Witness for C6: with the `{0xA9}` alphabet the first two emissions
are the length-2 sequences `A9 00` and `A9 01`. -/
theorem generator_emits_nondecreasing_lengths_witness :
    GenState.emittedAt genStateA9 0 = some [0xA9, 0x00] ∧
    GenState.emittedAt genStateA9 1 = some [0xA9, 0x01] ∧
    ([0xA9, 0x00] : List Nat).length ≤ ([0xA9, 0x01] : List Nat).length :=
  ⟨by decide, by decide,
    generator_emits_nondecreasing_lengths genStateA9 (by decide) 0 1
      (by decide) [0xA9, 0x00] [0xA9, 0x01] (by decide) (by decide)⟩

set_option maxRecDepth 100000 in
/-- C7 counterexample.  The claim states `generateTestCases()` is
deterministic across reruns even when sampling applies.  The sampling
call is `std::sample(..., std::mt19937{std::random_device{}()})`: the
retained subset depends on a seed drawn anew on every invocation.  For
`samplingSpec` (125 pre-sampling cases, none critical) two admissible
sampler behaviors — first-100 versus last-100, each realized under some
seed — give different test-case lists, so the output is not a function
of the specification alone. -/
theorem testcase_generation_depends_on_rng :
    ¬ (∀ f g : Sampler, ValidSampler f → ValidSampler g →
        generateTestCases samplingSpec f = generateTestCases samplingSpec g) := by
  intro hAll
  exact absurd (hAll takeSampler lastSampler takeSampler_valid lastSampler_valid)
    (by decide)

/-- C7 amended.  `generateTestCases` is deterministic whenever the
pre-sampling case list stays within the bound of 100 (the `std::sample`
branch is not taken); when the bound is exceeded the retained
non-critical subset depends on the per-invocation RNG seed. -/
theorem testcases_deterministic_below_sampling_bound
    (spec : OptimizationSpec) (f g : Sampler)
    (h : (presampleTestCases spec).length ≤ 100) :
    generateTestCases spec f = generateTestCases spec g := by
  unfold generateTestCases
  have h' : ¬ 100 < (presampleTestCases spec).length := by omega
  simp only [if_neg h']

/-- Witness for the amended C7 at a fully EXACT spec. -/
theorem testcases_deterministic_below_sampling_bound_witness :
    (presampleTestCases exactSpec).length ≤ 100 ∧
    generateTestCases exactSpec takeSampler =
      generateTestCases exactSpec lastSampler :=
  ⟨by decide,
    testcases_deterministic_below_sampling_bound exactSpec takeSampler
      lastSampler (by decide)⟩

set_option maxRecDepth 100000 in
/-- Once the sampling block applies, not even the test case
corresponding to the base case is guaranteed to survive: the base case
only lives on through its expanded variants (here the variant with
`sp = 0xFF`, `c = z = false`, at index 100 of the non-critical pool),
and under the admissible first-100 selection on `samplingSpec` the
resulting list does not contain it.  So of the spec's two determinism
rules, neither base-case inclusion nor per-search seeding survives the
sampling branch of this code. -/
theorem sampling_can_drop_base_case :
    (generateTestCases samplingSpec takeSampler).contains
      (baseCase samplingSpec) = false := by decide

/-- C8 counterexample.  The claim states numeric literals above 255
make `Value::parse` fail.  `parseNumeric` casts the `std::stoi` result
straight to `uint8_t` with no range check: `"300"` parses to
EXACT(44) and `"$1FF"` to EXACT(255); no error is raised. -/
theorem parse_overflowing_literal_returns_truncated_exact :
    Value.parse ['3', '0', '0'] = Except.ok (Value.exact 44) ∧
    Value.parse ['$', '1', 'F', 'F'] = Except.ok (Value.exact 255) :=
  ⟨rfl, rfl⟩

/-- C8 amended.  For every non-empty decimal digit literal within
`int` range, `Value::parse` succeeds with EXACT(value mod 256) — the
overflowing value is truncated, not rejected (the hex case behaves the
same way, witnessed concretely by `$1FF` above). -/
theorem parse_decimal_literal_truncates (s : List Char) (hne : s ≠ [])
    (hdig : ∀ c ∈ s, '0' ≤ c ∧ c ≤ '9')
    (hbound : decLiteralValue s ≤ INT_MAX) :
    Value.parse s = Except.ok (Value.exact (decLiteralValue s % 256)) := by
  have hnotdig : ∀ c0 : Char, ¬('0' ≤ c0 ∧ c0 ≤ '9') → c0 ∉ s :=
    fun c0 hc0 hmem => hc0 (hdig c0 hmem)
  have hq : '?' ∉ s := hnotdig '?' (by decide)
  have hcontains : s.contains '?' = false := by
    rw [List.contains_eq_any_beq, List.any_eq_false]
    intro c hc
    simp only [beq_iff_eq]
    intro heq
    exact hq (by rw [heq]; exact hc)
  have hpn : parseNumeric s = some (decLiteralValue s % 256) := by
    unfold parseNumeric
    rw [if_neg hne]
    have hhex : ¬((3 ≤ s.length ∧ s.take 2 = ['0', 'x']) ∨
        (2 ≤ s.length ∧ s.head? = some '$') ∨
        (2 ≤ s.length ∧ s.getLast? = some 'h')) := by
      rintro (⟨h3, ht⟩ | ⟨h2len, hh⟩ | ⟨h2len, hl⟩)
      · have hx : 'x' ∈ s :=
          List.mem_of_mem_take (by rw [ht]; simp)
        exact absurd (hdig 'x' hx) (by decide)
      · have hd : '$' ∈ s := by
          rcases s with _ | ⟨c, rest⟩
          · cases hh
          · simp only [List.head?_cons, Option.some.injEq] at hh
            rw [hh]
            simp
        exact absurd (hdig '$' hd) (by decide)
      · exact absurd (hdig 'h' (List.mem_of_mem_getLast? hl)) (by decide)
    rw [if_neg hhex]
    have hbin : ¬((3 ≤ s.length ∧ s.take 2 = ['0', 'b']) ∨
        (2 ≤ s.length ∧ s.head? = some '%')) := by
      rintro (⟨h3, ht⟩ | ⟨h2len, hh⟩)
      · have hb : 'b' ∈ s :=
          List.mem_of_mem_take (by rw [ht]; simp)
        exact absurd (hdig 'b' hb) (by decide)
      · have hd : '%' ∈ s := by
          rcases s with _ | ⟨c, rest⟩
          · cases hh
          · simp only [List.head?_cons, Option.some.injEq] at hh
            rw [hh]
            simp
        exact absurd (hdig '%' hd) (by decide)
    rw [if_neg hbin]
    rw [stoi_decimal_of_digits s hne hdig hbound]
    rfl
  unfold Value.parse
  rw [if_neg ?hc1, if_neg ?hc2, if_neg ?hc3, hpn]
  case hc1 =>
    rintro (h | h | h | h)
    · exact absurd (hdig '?' (by rw [h]; simp)) (by decide)
    · exact absurd (hdig '?' (by rw [h]; simp)) (by decide)
    · exact absurd (hdig 'A' (by rw [h]; simp)) (by decide)
    · rw [hcontains] at h; cases h
  case hc2 =>
    intro h
    exact absurd (hdig 'S' (by rw [h]; simp)) (by decide)
  case hc3 =>
    intro h
    exact absurd (hdig 'E' (by rw [h]; simp)) (by decide)

/-- Witness for the amended C8 at the literal `"300"`. -/
theorem parse_decimal_literal_truncates_witness :
    (['3', '0', '0'] : List Char) ≠ [] ∧
    Value.parse ['3', '0', '0'] =
      Except.ok (Value.exact (decLiteralValue ['3', '0', '0'] % 256)) :=
  ⟨by decide,
    parse_decimal_literal_truncates ['3', '0', '0'] (by decide) (by decide)
      (by decide)⟩

/-- C10 counterexample.  The claim states every element access of
`hasRedundantInstructions` stays in bounds, in particular for length-1
sequences.  The generator does examine length-1 sequences — `[0x18]`
(CLC) is produced raw at length 1 and is not an all-NOP sequence, so
`shouldPrune` reaches `hasRedundantInstructions` — and there the loop
bound `1 - 2` wraps to `2^64 - 1` in `size_t`, so the loop runs far
past the 1-byte vector and performs unchecked out-of-bounds reads
(`sequence[1]` at `i = 1` is the first one the short-circuiting `&&`
actually evaluates). -/
theorem redundant_scan_out_of_bounds_for_length_one :
    [0x18] ∈ rawSequencesOfLength getAllValidOpcodes 1 ∧
    hasNoEffect [0x18] = false ∧
    ¬ redundantAccessesInBounds [0x18] := by
  refine ⟨by decide, by decide, fun hb => ?_⟩
  have h0 := hb 0 (by decide)
  exact absurd h0 (by decide)

/-- C10 amended.  For sequences of at least 2 bytes the loop bound is
`size - 2` without wraparound and both accesses `sequence[i]`,
`sequence[i+2]` stay in bounds; only the length-0/1 sequences underflow
the bound. -/
theorem redundant_scan_in_bounds_for_length_ge_two (s : List Nat)
    (h2 : 2 ≤ s.length) :
    redundantAccessesInBounds s := by
  intro i hi
  unfold redundantLoopBound cppSub64 size_t_mod at hi
  omega

/-- Witness for the amended C10 at a 3-byte sequence and index 0. -/
theorem redundant_scan_in_bounds_for_length_ge_two_witness :
    2 ≤ ([0xA9, 0x00, 0x00] : List Nat).length ∧
    0 + 2 < ([0xA9, 0x00, 0x00] : List Nat).length :=
  ⟨by decide,
    redundant_scan_in_bounds_for_length_ge_two [0xA9, 0x00, 0x00] (by decide)
      0 (by decide)⟩

end Phaistos
